import Mathlib

/-!
# Simple-Image-Recognition: coordinator/worker search, verified against the C sources

A shallow embedding of `helper.h`, `helper.c` and `main.c`.

* C `int` values that carry data (ids, dimensions, pixels, rows, columns, message payloads) are
  `Int`; counters that start at `0` and are only incremented (`numObjectsFound`, `pictureIndex`,
  `logsIndex`, ranks, tags) are `Nat`. Where the range of the 32-bit `int` decides what the
  program does, the model fails explicitly: the division of helper.c:220-221 (`INT_MIN / -1`)
  and the product `dimension * dimension` of helper.c:78 and helper.c:103.
* Heap arrays are lists; an access outside an array, a division by zero and an MPI receive that
  cannot be completed are explicit failures.
* The OpenMP tasks of `findObjectsInPicture` are modelled by the order in which they reach the
  critical section; MPI matching of `MPI_ANY_SOURCE` is modelled by the list of ranks the
  successive receives are matched with.
-/

namespace ImageRecognition

/-! ## helper.h -/

/-- Tag `PICTURE_TAG` of helper.h. -/
def PICTURE_TAG : Nat := 0

/-- Tag `OBJECT_TAG` of helper.h. -/
def OBJECT_TAG : Nat := 1

/-- Tag `LOGS_TAG` of helper.h. -/
def LOGS_TAG : Nat := 2

/-- Tag `TERMINATE_TAG` of helper.h. -/
def TERMINATE_TAG : Nat := 3

/-- Value `NOT_FOUND` of helper.h. -/
def NOT_FOUND : Int := -1

/-- The least value of the 32-bit `int` of the C program. -/
def INT_MIN : Int := -2147483648

/-- The greatest value of the 32-bit `int` of the C program. -/
def INT_MAX : Int := 2147483647

/-- Record `struct PictureStruct`. -/
structure Picture where
  ID : Int
  dimension : Int
  colorsMatrix : List Int
deriving DecidableEq, Repr

/-- Record `struct ObjectStruct`. -/
structure Object where
  ID : Int
  dimension : Int
  subColorsMatrix : List Int
deriving DecidableEq, Repr

/-- Record `struct PositionStruct`. -/
structure Position where
  row : Int
  column : Int
deriving DecidableEq, Repr

/-- Record `struct LogsStruct`; `objectIDs = NULL` is the empty list. -/
structure Logs where
  pictureID : Int
  numObjectsFound : Nat
  objectIDs : List Int
  objectPositions : List Position
deriving DecidableEq, Repr

/-- Ways in which a step of the C program has no defined result. -/
inductive Fault where
  | outOfBounds
  | divisionByZero
  | overflow
deriving DecidableEq, Repr

deriving instance DecidableEq for Except

/-! ## helper.c: findObjectsInPicture -/

/-- The critical section of `findObjectsInPicture` (helper.c:216-223), run by the task of
`object` once the engine has answered `upperLeftCorner`: the statements are executed in source
order, so the write to `objectIDs` comes first, then the division, then the writes to
`objectPositions`; `/` and `%` of C truncate towards zero. The division of two `int` values has
no result when the divisor is zero and when the quotient `INT_MIN / -1` is not an `int`; both
stop the program. -/
def criticalSection (picture : Picture) (object : Object) (upperLeftCorner : Int) (log : Logs) :
    Except Fault Logs :=
  if log.numObjectsFound < log.objectIDs.length then
    if picture.dimension = 0 then .error .divisionByZero
    else if upperLeftCorner = INT_MIN ∧ picture.dimension = -1 then .error .overflow
    else if log.numObjectsFound < log.objectPositions.length then
      .ok { pictureID := picture.ID
            numObjectsFound := log.numObjectsFound + 1
            objectIDs := log.objectIDs.set log.numObjectsFound object.ID
            objectPositions := log.objectPositions.set log.numObjectsFound
              { row := Int.tdiv upperLeftCorner picture.dimension
                column := Int.tmod upperLeftCorner picture.dimension } }
    else .error .outOfBounds
  else .error .outOfBounds

/-- The body of the task created for index `i` (helper.c:209-225). `engine picture object` is
the value `calculateMatchingOnGPU` leaves in `upperLeftCorner` at the run's threshold. -/
def objectTask (engine : Picture → Object → Int) (picture : Picture) (objects : List Object)
    (i : Nat) (log : Logs) : Except Fault Logs :=
  match objects[i]? with
  | none => .error .outOfBounds
  | some object =>
    let upperLeftCorner := engine picture object
    if upperLeftCorner ≠ NOT_FOUND then criticalSection picture object upperLeftCorner log
    else .ok log

/-- Function `findObjectsInPicture` of helper.c. One task is created for every index
`0 .. numberOfObjects - 1`; `completion` lists the task indices in the order in which the tasks
pass the critical section (a permutation of `List.range objects.length` in every real run). -/
def findObjectsInPicture (engine : Picture → Object → Int) (picture : Picture)
    (objects : List Object) : List Nat → Logs → Except Fault Logs
  | [], log => .ok log
  | i :: completion, log =>
    match objectTask engine picture objects i log with
    | .error e => .error e
    | .ok log' => findObjectsInPicture engine picture objects completion log'

/-- The entry a worker allocates before the search (main.c:127-143). `heap` gives the contents
of the freshly allocated, not initialised `objectIDs` array. -/
def workerEntry (picture : Picture) (numberOfObjects : Nat) (heap : Nat → Int) : Logs :=
  { pictureID := picture.ID
    numObjectsFound := 0
    objectIDs := (List.range numberOfObjects).map heap
    objectPositions := List.replicate numberOfObjects { row := NOT_FOUND, column := NOT_FOUND } }

/-- One MPI message of `MPI_INT` values with its tag. -/
structure Message where
  tag : Nat
  data : List Int
deriving DecidableEq, Repr

/-- Call `MPI_Recv(buf, count, MPI_INT, source, tag, ...)` on the queue of messages pending from
one source, oldest first: the oldest message whose tag matches is taken (`tag = none` is
`MPI_ANY_TAG`). The result is `none` when no message matches (the caller stays blocked), when
the message is longer than `count` (truncation error, fatal) and when it is shorter (the rest of
the buffer keeps indeterminate contents, which the model gives no value). -/
def MPI_Recv (count : Nat) (tag : Option Nat) : List Message → Option (Message × List Message)
  | [] => none
  | m :: queue =>
    if tag = none ∨ tag = some m.tag then
      if m.data.length = count then some (m, queue) else none
    else
      match MPI_Recv count tag queue with
      | none => none
      | some (found, rest) => some (found, m :: rest)

/-- Function `sendPicture` of helper.c: three messages. The matrix buffer was allocated with
`dimension * dimension` cells, which are all sent; the product is an `int` for every picture
that `readInputFile` returns. -/
def sendPicture (picture : Picture) (tag : Nat) : List Message :=
  [ { tag := tag, data := [picture.ID] },
    { tag := tag, data := [picture.dimension] },
    { tag := tag, data := picture.colorsMatrix.take (picture.dimension * picture.dimension).toNat } ]

/-- Function `receivePicture` of helper.c, called by a worker with `MPI_ANY_TAG` on the queue of
messages from rank 0. A negative `dimension * dimension` cannot occur; the allocation is taken
to succeed. -/
def receivePicture (inbox : List Message) : Option (Picture × Nat × List Message) :=
  match MPI_Recv 1 none inbox with
  | none => none
  | some (mID, inbox1) =>
    match MPI_Recv 1 none inbox1 with
    | none => none
    | some (mDimension, inbox2) =>
      let dimension := mDimension.data.headD 0
      match MPI_Recv (dimension * dimension).toNat none inbox2 with
      | none => none
      | some (mMatrix, inbox3) =>
        some ({ ID := mID.data.headD 0, dimension := dimension, colorsMatrix := mMatrix.data },
              mMatrix.tag, inbox3)

/-- The position messages of `sendLog` (helper.c:162-166). -/
def sendPositions (tag : Nat) : List Position → List Message
  | [] => []
  | p :: rest =>
    { tag := tag, data := [p.row] } :: { tag := tag, data := [p.column] } :: sendPositions tag rest

/-- Function `sendLog` of helper.c. It reads the first `numObjectsFound` cells of both arrays;
`none` when an array is shorter than that. -/
def sendLog (log : Logs) (tag : Nat) : Option (List Message) :=
  if log.numObjectsFound ≤ log.objectIDs.length ∧
      log.numObjectsFound ≤ log.objectPositions.length then
    some ({ tag := tag, data := [log.pictureID] } ::
          { tag := tag, data := [(log.numObjectsFound : Int)] } ::
          { tag := tag, data := log.objectIDs.take log.numObjectsFound } ::
          sendPositions tag (log.objectPositions.take log.numObjectsFound))
  else none

/-- The messages pending at rank 0, one queue per source rank (index = rank), oldest first. -/
abbrev Network := List (List Message)

/-- What one `MPI_Recv` with `MPI_ANY_SOURCE` leaves behind. -/
structure Received where
  data : List Int
  MPI_SOURCE : Nat
  network : Network
  matching : List Nat
deriving DecidableEq, Repr

/-- Call `MPI_Recv(buf, count, MPI_INT, MPI_ANY_SOURCE, tag, ...)` at rank 0. MPI may match the
receive with a pending message of any source; `matching` lists the sources that the successive
receives are matched with. Messages of one source are taken in the order they were sent. -/
def recvAnySource (count : Nat) (tag : Nat) (network : Network) :
    List Nat → Option Received
  | [] => none
  | source :: matching =>
    match MPI_Recv count (some tag) (network.getD source []) with
    | none => none
    | some (m, queue) =>
      some { data := m.data, MPI_SOURCE := source, network := network.set source queue,
             matching := matching }

/-- What one call of `receiveLog` leaves behind: the entry and `status.MPI_SOURCE`, which is the
source of the last message received. -/
structure ReceivedLog where
  log : Logs
  MPI_SOURCE : Nat
  network : Network
  matching : List Nat
deriving DecidableEq, Repr

/-- The loop of `receiveLog` (helper.c:178-182): `remaining` more positions are received. -/
def receivePositions (tag : Nat) : Nat → List Position → Nat → Network → List Nat →
    Option (List Position × Nat × Network × List Nat)
  | 0, positions, source, network, matching => some (positions, source, network, matching)
  | remaining + 1, positions, _, network, matching =>
    match recvAnySource 1 tag network matching with
    | none => none
    | some r =>
      match recvAnySource 1 tag r.network r.matching with
      | none => none
      | some c =>
        receivePositions tag remaining
          (positions ++ [{ row := r.data.headD 0, column := c.data.headD 0 }])
          c.MPI_SOURCE c.network c.matching

/-- Function `receiveLog` of helper.c, called with `MPI_ANY_SOURCE` (main.c:89, main.c:102):
every one of its receives is matched on its own. A negative `numObjectsFound` makes the
allocation fail, which aborts the run. -/
def receiveLog (tag : Nat) (network : Network) (matching : List Nat) : Option ReceivedLog :=
  match recvAnySource 1 tag network matching with
  | none => none
  | some rID =>
    match recvAnySource 1 tag rID.network rID.matching with
    | none => none
    | some rNum =>
      let numObjectsFound := rNum.data.headD 0
      if numObjectsFound < 0 then none
      else
        match recvAnySource numObjectsFound.toNat tag rNum.network rNum.matching with
        | none => none
        | some rIDs =>
          match receivePositions tag numObjectsFound.toNat [] rIDs.MPI_SOURCE rIDs.network
              rIDs.matching with
          | none => none
          | some (positions, source, network', matching') =>
            some { log := { pictureID := rID.data.headD 0
                            numObjectsFound := numObjectsFound.toNat
                            objectIDs := rIDs.data
                            objectPositions := positions }
                   MPI_SOURCE := source, network := network', matching := matching' }

/-- The successive calls of `receiveLog` made by rank 0, at most `calls` of them, up to the first
one that does not return: the entries stored and the value of `status.MPI_SOURCE` after each. -/
def receiveLogs : Nat → Network → List Nat → List (Logs × Nat)
  | 0, _, _ => []
  | calls + 1, network, matching =>
    match receiveLog LOGS_TAG network matching with
    | none => []
    | some r => (r.log, r.MPI_SOURCE) :: receiveLogs calls r.network r.matching

/-! ## main.c: the coordinator (rank 0) -/

/-- What rank 0 does on the network, one event for each statement executed, in program order:
`MPI_Send(&pictureIndex, 1, MPI_INT, dest, tag, ...)`,
`sendPicture(&pictures[pictureIndex], dest, PICTURE_TAG)` and
`receiveLog(&searchLogs[slot], MPI_ANY_SOURCE, LOGS_TAG, &status)` with the value it leaves in
`status.MPI_SOURCE`. -/
inductive Event where
  | sendIndex (dest : Nat) (tag : Nat) (pictureIndex : Nat)
  | sendPicture (dest : Nat) (pictureIndex : Nat) (picture : Picture)
  | receiveLog (slot : Nat) (source : Nat)
deriving DecidableEq, Repr

/-- The variables of rank 0 in `main`, with the events so far and the successive values of
`(pictureIndex, logsIndex)`; `finished` is set when the terminate loop is done. -/
structure Master where
  pictureIndex : Nat
  logsIndex : Nat
  searchLogs : List Logs
  events : List Event
  points : List (Nat × Nat)
  finished : Bool
deriving DecidableEq, Repr

/-- The two sends of main.c:80-81 and main.c:93-96: the index, then the picture. -/
def dispatch (dest : Nat) (pictureIndex : Nat) (picture : Picture) : List Event :=
  [Event.sendIndex dest PICTURE_TAG pictureIndex, Event.sendPicture dest pictureIndex picture]

/-- The loop of main.c:78-83, from its counter `i` on; `iterations` bounds the number of
iterations left (`size - 1` from `i = 1`). -/
def initialWindow (size : Nat) (pictures : List Picture) : Nat → Nat → Master → Master
  | 0, _, s => s
  | iterations + 1, i, s =>
    if i < size ∧ s.pictureIndex < pictures.length then
      match pictures[s.pictureIndex]? with
      | none => s
      | some picture =>
        initialWindow size pictures iterations (i + 1)
          { s with events := s.events ++ dispatch i s.pictureIndex picture
                   pictureIndex := s.pictureIndex + 1
                   points := s.points ++ [(s.pictureIndex + 1, s.logsIndex)] }
    else s

/-- The loop of main.c:86-98. `received` holds what the coming calls of `receiveLog` store and
leave in `status.MPI_SOURCE`; the loop is left with `none` when a call does not return. -/
def dispatchLoop (pictures : List Picture) :
    List (Logs × Nat) → Master → Master × Option (List (Logs × Nat))
  | [], s => if s.pictureIndex < pictures.length then (s, none) else (s, some [])
  | (log, source) :: received, s =>
    if s.pictureIndex < pictures.length then
      match pictures[s.pictureIndex]? with
      | none => (s, none)
      | some picture =>
        dispatchLoop pictures received
          { s with searchLogs := s.searchLogs.set s.logsIndex log
                   logsIndex := s.logsIndex + 1
                   events := s.events ++ Event.receiveLog s.logsIndex source ::
                     dispatch source s.pictureIndex picture
                   pictureIndex := s.pictureIndex + 1
                   points := s.points ++ [(s.pictureIndex, s.logsIndex + 1),
                                          (s.pictureIndex + 1, s.logsIndex + 1)] }
    else (s, some ((log, source) :: received))

/-- The loop of main.c:100-104. -/
def collectLoop (numberOfPictures : Nat) :
    List (Logs × Nat) → Master → Master × Option (List (Logs × Nat))
  | [], s => if s.logsIndex < numberOfPictures then (s, none) else (s, some [])
  | (log, source) :: received, s =>
    if s.logsIndex < numberOfPictures then
      collectLoop numberOfPictures received
        { s with searchLogs := s.searchLogs.set s.logsIndex log
                 logsIndex := s.logsIndex + 1
                 events := s.events ++ [Event.receiveLog s.logsIndex source]
                 points := s.points ++ [(s.pictureIndex, s.logsIndex + 1)] }
    else (s, some ((log, source) :: received))

/-- The loop of main.c:107-108. -/
def terminateAll (size : Nat) (s : Master) : Master :=
  { s with events := s.events ++ (List.range' 1 (size - 1)).map (fun i =>
             Event.sendIndex i TERMINATE_TAG s.pictureIndex)
           finished := true }

/-- The entries rank 0 allocates before the dispatch (main.c:43-49); `heap` gives the contents of
the not initialised position arrays. -/
def initialLogs (pictures : List Picture) (numberOfObjects : Nat) (heap : Nat → Position) :
    List Logs :=
  pictures.map (fun picture =>
    { pictureID := picture.ID, numObjectsFound := 0, objectIDs := []
      objectPositions := (List.range numberOfObjects).map heap })

/-- Rank 0 of `main` (main.c:74-108) for `size` processes, up to the call of `writeLogs`. -/
def master (size : Nat) (pictures : List Picture) (numberOfObjects : Nat)
    (heap : Nat → Position) (received : List (Logs × Nat)) : Master :=
  let s0 : Master :=
    { pictureIndex := 0, logsIndex := 0
      searchLogs := initialLogs pictures numberOfObjects heap
      events := [], points := [(0, 0)], finished := false }
  let s1 := initialWindow size pictures (size - 1) 1 s0
  match dispatchLoop pictures received s1 with
  | (s2, none) => s2
  | (s2, some received2) =>
    match collectLoop pictures.length received2 s2 with
    | (s3, none) => s3
    | (s3, some _) => terminateAll size s3

/-- The messages an event puts on the channel from rank 0 to rank `rank`. -/
def messagesTo (rank : Nat) : Event → List Message
  | Event.sendIndex dest tag pictureIndex =>
    if dest = rank then [{ tag := tag, data := [(pictureIndex : Int)] }] else []
  | Event.sendPicture dest _ picture =>
    if dest = rank then sendPicture picture PICTURE_TAG else []
  | Event.receiveLog _ _ => []

/-- The messages rank 0 has sent to rank `rank`, oldest first. -/
def inboxOf (rank : Nat) (events : List Event) : List Message :=
  events.flatMap (messagesTo rank)

/-- The indices of the pictures sent (the `sendPicture` statements), in program order. -/
def dispatchedIndices : List Event → List Nat
  | [] => []
  | Event.sendPicture _ pictureIndex _ :: events => pictureIndex :: dispatchedIndices events
  | _ :: events => dispatchedIndices events

/-- The pictures sent to rank `rank` with their indices, in program order. -/
def dispatchesTo (rank : Nat) : List Event → List (Nat × Picture)
  | [] => []
  | Event.sendPicture dest pictureIndex picture :: events =>
    if dest = rank then (pictureIndex, picture) :: dispatchesTo rank events
    else dispatchesTo rank events
  | _ :: events => dispatchesTo rank events

/-- The messages of a sequence of dispatches to one rank: for each, the index message and the
three messages of `sendPicture`, all with `PICTURE_TAG`. -/
def pictureMessages (dispatches : List (Nat × Picture)) : List Message :=
  dispatches.flatMap (fun d =>
    { tag := PICTURE_TAG, data := [(d.1 : Int)] } :: sendPicture d.2 PICTURE_TAG)

/-- After a `receiveLog` that comes while pictures are left to dispatch (`k` sent so far,
`k < numberOfPictures`), the next two statements send the index `k` and the picture
`pictures[k]` to the rank in `status.MPI_SOURCE`. -/
def Redispatches (pictures : List Picture) (events : List Event) : Prop :=
  ∀ j slot source, events[j]? = some (Event.receiveLog slot source) →
    (dispatchedIndices (events.take j)).length < pictures.length →
    ∃ picture, pictures[(dispatchedIndices (events.take j)).length]? = some picture ∧
      events[j + 1]? = some (Event.sendIndex source PICTURE_TAG
        (dispatchedIndices (events.take j)).length) ∧
      events[j + 2]? = some (Event.sendPicture source
        (dispatchedIndices (events.take j)).length picture)

/-- What holds of the coordinator's variables at every point before the terminate loop. -/
structure MasterInvariant (size : Nat) (pictures : List Picture) (s : Master) : Prop where
  answered_le : s.logsIndex ≤ s.pictureIndex
  in_flight : s.pictureIndex ≤ s.logsIndex + (size - 1)
  sent_le : s.pictureIndex ≤ pictures.length
  points_ok : ∀ p ∈ s.points, p.1 ≤ p.2 + (size - 1)
  dispatched : dispatchedIndices s.events = List.range s.pictureIndex
  carried : ∀ rank, ∀ d ∈ dispatchesTo rank s.events, pictures[d.1]? = some d.2
  redispatch : Redispatches pictures s.events
  inbox : ∀ rank, inboxOf rank s.events = pictureMessages (dispatchesTo rank s.events)
  slots : s.searchLogs.length = pictures.length
  running : s.finished = false

/-! ## main.c: a worker (rank > 0) -/

/-- Where a worker stands. -/
inductive WorkerStatus where
  | running
  | waiting
  | crashed
  | exited
deriving DecidableEq, Repr

/-- A worker of `main`: the pictures searched so far, the messages sent to rank 0 and the
messages from rank 0 not yet received. -/
structure Worker where
  processed : List Picture
  sent : List Message
  inbox : List Message
  status : WorkerStatus
deriving DecidableEq, Repr

/-- The loop of main.c:121-154, entered with `status.MPI_TAG = tag`. `search picture` is the
entry built by main.c:127-146 for the picture; `iterations` bounds the iterations left (every
iteration receives messages, so the number of pending messages is enough). -/
def workerLoop (search : Picture → Except Fault Logs) : Nat → Nat → Worker → Worker
  | 0, _, w => w
  | iterations + 1, tag, w =>
    if tag ≠ TERMINATE_TAG then
      match receivePicture w.inbox with
      | none => { w with status := .waiting }
      | some (picture, _, inbox1) =>
        match search picture with
        | .error _ => { w with inbox := inbox1, status := .crashed }
        | .ok log =>
          match sendLog log LOGS_TAG with
          | none => { w with inbox := inbox1, status := .crashed }
          | some messages =>
            match MPI_Recv 1 none inbox1 with
            | none => { processed := w.processed ++ [picture], sent := w.sent ++ messages
                        inbox := inbox1, status := .waiting }
            | some (m, inbox2) =>
              workerLoop search iterations m.tag
                { processed := w.processed ++ [picture], sent := w.sent ++ messages
                  inbox := inbox2, status := .running }
    else { w with status := .exited }

/-- A worker of `main` (main.c:118-154) on the messages `inbox` sent to it by rank 0. -/
def worker (search : Picture → Except Fault Logs) (inbox : List Message) : Worker :=
  match MPI_Recv 1 none inbox with
  | none => { processed := [], sent := [], inbox := inbox, status := .waiting }
  | some (m, inbox1) =>
    workerLoop search inbox.length m.tag
      { processed := [], sent := [], inbox := inbox1, status := .running }

/-- The search of the picture ends with an entry and `sendLog` can send it. -/
def answers (search : Picture → Except Fault Logs) (picture : Picture) : Bool :=
  match search picture with
  | .ok log => (sendLog log LOGS_TAG).isSome
  | .error _ => false

/-- The search of a worker for one picture (main.c:127-146): a fresh entry, then
`findObjectsInPicture` with the tasks completing in the order `completion`. -/
def workerSearch (engine : Picture → Object → Int) (objects : List Object) (heap : Nat → Int)
    (completion : List Nat) (picture : Picture) : Except Fault Logs :=
  findObjectsInPicture engine picture objects completion
    (workerEntry picture objects.length heap)

/-! ## helper.c: writeLogs -/

/-- The loop of helper.c:132-134 from index `j` on, `remaining` iterations left: the text it
prints. `positions[j]` is read in every iteration, `objectIDs[j]` when the position is printed;
`none` when a read falls outside its array. -/
def writeObjects (log : Logs) : Nat → Nat → Option String
  | 0, _ => some ""
  | remaining + 1, j =>
    match log.objectPositions[j]? with
    | none => none
    | some position =>
      if position.row ≠ -1 ∧ position.column ≠ -1 then
        match log.objectIDs[j]?, writeObjects log remaining (j + 1) with
        | some objectID, some text =>
          some (" " ++ toString objectID ++ " Position(" ++ toString position.row ++ "," ++
            toString position.column ++ ");" ++ text)
        | _, _ => none
      else writeObjects log remaining (j + 1)

/-- One iteration of the loop of helper.c:125-137: the text printed for `log`. -/
def writeLog (log : Logs) : Option String :=
  if log.numObjectsFound < 3 then
    some ("Picture " ++ toString log.pictureID ++ ": No three different Objects were found\r\n")
  else
    match writeObjects log log.numObjectsFound 0 with
    | none => none
    | some text =>
      some ("Picture " ++ toString log.pictureID ++ ": found Objects: " ++ text ++ "\r\n")

/-- Function `writeLogs` of helper.c: the pieces of text written to the output file, one for each
iteration of the outer loop, in order (the file holds their concatenation). -/
def writeLogs : List Logs → Option (List String)
  | [] => some []
  | log :: logs =>
    match writeLog log, writeLogs logs with
    | some line, some lines => some (line :: lines)
    | _, _ => none

/-- One filled slot of an entry: the object id with its position. -/
structure MatchRecord where
  objectID : Int
  position : Position
deriving DecidableEq, Repr

/-- The filled slots `0 .. numObjectsFound - 1` of an entry, in slot order. -/
def records (log : Logs) : List MatchRecord :=
  (List.zipWith MatchRecord.mk log.objectIDs log.objectPositions).take log.numObjectsFound

/-- The text that names one object with its position. -/
def recordText (r : MatchRecord) : String :=
  " " ++ toString r.objectID ++ " Position(" ++ toString r.position.row ++ "," ++
    toString r.position.column ++ ");"

/-- The line for a picture in which fewer than three objects were found. -/
def noThreeLine (pictureID : Int) : String :=
  "Picture " ++ toString pictureID ++ ": No three different Objects were found\r\n"

/-- The texts of a list, one after the other. -/
def concatText : List String → String
  | [] => ""
  | text :: texts => text ++ concatText texts

/-- The line that lists the records `rs` for a picture. -/
def foundLine (pictureID : Int) (rs : List MatchRecord) : String :=
  "Picture " ++ toString pictureID ++ ": found Objects: " ++
    concatText (rs.map recordText) ++ "\r\n"

/-- The report line of an entry as the specification words it: the "no three" line below three
found objects, otherwise every found object with its position, in slot order. -/
def reportLineListingAll (log : Logs) : String :=
  if log.numObjectsFound < 3 then noThreeLine log.pictureID
  else foundLine log.pictureID (records log)

/-- The report line with the guard of helper.c:133: of the found objects, those are listed whose
row and column both differ from `-1`. -/
def reportLine (log : Logs) : String :=
  if log.numObjectsFound < 3 then noThreeLine log.pictureID
  else foundLine log.pictureID
    ((records log).filter (fun r => decide (r.position.row ≠ -1 ∧ r.position.column ≠ -1)))

/-! ## helper.c: readInputFile -/

/-- The input file as `fscanf` sees it: the outcome of the `"%lf"` conversion at its start, then
the outcomes of the successive `"%d"` conversions on what follows (`some v`: the value
converted, `none`: text that is not an integer; the end of the list is the end of the file). -/
structure InputFile where
  threshold : Option Rat
  values : List (Option Int)
deriving DecidableEq, Repr

/-- How the reading ends without a result: the run is aborted (`MPI_Abort`) by `checkRead` or by
`checkMalloc`, with the text that names the failing operation, or the product
`dimension * dimension` of helper.c:78 and helper.c:103 is not an `int` (with the usual
wrap-around the size asked for is then negative or too small, and the run ends in `checkMalloc`
or in writes outside the buffer). -/
inductive Abort where
  | read (message : String)
  | malloc (message : String)
  | overflow
deriving DecidableEq, Repr

/-- One `checkRead(fscanf(fp, "%d", &x), 1, message)`: the value and the rest of the input, or
the abort of `checkRead` when nothing was converted. -/
def readInt (message : String) : List (Option Int) → Except Abort (Int × List (Option Int))
  | some v :: input => .ok (v, input)
  | _ => .error (.read message)

/-- The inner loop of `readColorsMatrix` (helper.c:55-56) for row `j`, from column `k` on,
`remaining` iterations left. -/
def readColorsRow (dimension j : Nat) :
    Nat → Nat → List (Option Int) → List Int → Except Abort (List Int × List (Option Int))
  | 0, _, input, colorsMatrix => .ok (colorsMatrix, input)
  | remaining + 1, k, input, colorsMatrix =>
    match readInt "color" input with
    | .error e => .error e
    | .ok (v, input') =>
      readColorsRow dimension j remaining (k + 1) input' (colorsMatrix.set (j * dimension + k) v)

/-- The outer loop of `readColorsMatrix` (helper.c:54) from row `j` on. -/
def readColorsRows (dimension : Nat) :
    Nat → Nat → List (Option Int) → List Int → Except Abort (List Int × List (Option Int))
  | 0, _, input, colorsMatrix => .ok (colorsMatrix, input)
  | remaining + 1, j, input, colorsMatrix =>
    match readColorsRow dimension j dimension 0 input colorsMatrix with
    | .error e => .error e
    | .ok (colorsMatrix', input') => readColorsRows dimension remaining (j + 1) input' colorsMatrix'

/-- Function `readColorsMatrix` of helper.c on the buffer its caller allocated:
`dimension * dimension` cells with the indeterminate contents `heap`. Both loops run
`dimension` times, not at all for a dimension below one. Its callers reach it only when the
product `dimension * dimension` is an `int`. -/
def readColorsMatrix (heap : Nat → Int) (dimension : Int) (input : List (Option Int)) :
    Except Abort (List Int × List (Option Int)) :=
  readColorsRows dimension.toNat dimension.toNat 0 input
    ((List.range (dimension * dimension).toNat).map heap)

/-- The loop of `readPictures` (helper.c:69-81), `remaining` iterations left. The size of the
matrix, `dimension * dimension`, is computed in `int` before the allocation, which is taken to
succeed when the product is an `int`. -/
def readPictureLoop (heap : Nat → Int) :
    Nat → List (Option Int) → Except Abort (List Picture × List (Option Int))
  | 0, input => .ok ([], input)
  | remaining + 1, input =>
    match readInt "picture ID" input with
    | .error e => .error e
    | .ok (ID, input1) =>
      match readInt "picture dimension" input1 with
      | .error e => .error e
      | .ok (dimension, input2) =>
        if INT_MAX < dimension * dimension then .error .overflow
        else
        match readColorsMatrix heap dimension input2 with
        | .error e => .error e
        | .ok (colorsMatrix, input3) =>
          match readPictureLoop heap remaining input3 with
          | .error e => .error e
          | .ok (pictures, input4) =>
            .ok ({ ID := ID, dimension := dimension, colorsMatrix := colorsMatrix } :: pictures,
                 input4)

/-- Function `readPictures` of helper.c. A negative count asks `malloc` for a size that no
allocation satisfies, so `checkMalloc` aborts. -/
def readPictures (heap : Nat → Int) (input : List (Option Int)) :
    Except Abort (List Picture × List (Option Int)) :=
  match readInt "number of pictures" input with
  | .error e => .error e
  | .ok (numberOfPictures, input1) =>
    if numberOfPictures < 0 then .error (.malloc "pictures array")
    else readPictureLoop heap numberOfPictures.toNat input1

/-- The loop of `readObjects` (helper.c:94-106), `remaining` iterations left. -/
def readObjectLoop (heap : Nat → Int) :
    Nat → List (Option Int) → Except Abort (List Object × List (Option Int))
  | 0, input => .ok ([], input)
  | remaining + 1, input =>
    match readInt "object ID" input with
    | .error e => .error e
    | .ok (ID, input1) =>
      match readInt "object dimension" input1 with
      | .error e => .error e
      | .ok (dimension, input2) =>
        if INT_MAX < dimension * dimension then .error .overflow
        else
        match readColorsMatrix heap dimension input2 with
        | .error e => .error e
        | .ok (subColorsMatrix, input3) =>
          match readObjectLoop heap remaining input3 with
          | .error e => .error e
          | .ok (objects, input4) =>
            .ok ({ ID := ID, dimension := dimension, subColorsMatrix := subColorsMatrix } ::
                 objects, input4)

/-- Function `readObjects` of helper.c. -/
def readObjects (heap : Nat → Int) (input : List (Option Int)) :
    Except Abort (List Object × List (Option Int)) :=
  match readInt "number of objects" input with
  | .error e => .error e
  | .ok (numberOfObjects, input1) =>
    if numberOfObjects < 0 then .error (.malloc "objects array")
    else readObjectLoop heap numberOfObjects.toNat input1

/-- What `readInputFile` hands back through its pointers; `numberOfPictures` and
`numberOfObjects` are the lengths of the two arrays. `unread` is what is left of the file. -/
structure InputData where
  matchingThreshold : Rat
  pictures : List Picture
  objects : List Object
  unread : List (Option Int)
deriving DecidableEq, Repr

/-- Function `readInputFile` of helper.c on an input file that could be opened. -/
def readInputFile (heap : Nat → Int) (file : InputFile) : Except Abort InputData :=
  match file.threshold with
  | none => .error (.read "matching threshold")
  | some matchingThreshold =>
    match readPictures heap file.values with
    | .error e => .error e
    | .ok (pictures, input1) =>
      match readObjects heap input1 with
      | .error e => .error e
      | .ok (objects, input2) =>
        .ok { matchingThreshold := matchingThreshold, pictures := pictures, objects := objects
              unread := input2 }

/-- The record the task of index `i` appends, if it appends one: the id of `objects[i]` with the
decoded position, when the engine's answer differs from `NOT_FOUND`. -/
def taskRecord (engine : Picture → Object → Int) (picture : Picture) (objects : List Object)
    (i : Nat) : Option MatchRecord :=
  match objects[i]? with
  | none => none
  | some object =>
    if engine picture object ≠ NOT_FOUND then
      some { objectID := object.ID
             position := { row := Int.tdiv (engine picture object) picture.dimension
                           column := Int.tmod (engine picture object) picture.dimension } }
    else none

/-- The division `upperLeftCorner / dimension` of helper.c:220 has no result: the divisor is
zero, or the quotient `INT_MIN / -1` is not an `int`. -/
def divisionTraps (upperLeftCorner dimension : Int) : Prop :=
  dimension = 0 ∨ (upperLeftCorner = INT_MIN ∧ dimension = -1)

/-- The task of index `i` reaches the critical section (the engine's answer differs from
`NOT_FOUND`) and its division has no result. -/
def taskTraps (engine : Picture → Object → Int) (picture : Picture) (objects : List Object)
    (i : Nat) : Prop :=
  match objects[i]? with
  | none => False
  | some object =>
    engine picture object ≠ NOT_FOUND ∧ divisionTraps (engine picture object) picture.dimension

/-! ## A run with two workers that answer at the same time -/

/-- An engine for the scenario: it finds every object at cell 1 of the picture with id 10 (row 0,
column 1 of its 2 x 2 grid) and at cell 5 of any other picture (row 1, column 2 of a 3 x 3
grid). -/
def scenarioEngine (picture : Picture) (_ : Object) : Int :=
  if picture.ID = 10 then 1 else 5

/-- Two pictures, with ids 10 and 1. -/
def scenarioPictures : List Picture :=
  [ { ID := 10, dimension := 2, colorsMatrix := [0, 9, 0, 0] },
    { ID := 1, dimension := 3, colorsMatrix := [0, 0, 0, 0, 0, 9, 0, 0, 0] } ]

/-- One object of one pixel, with id 7. -/
def scenarioObjects : List Object :=
  [ { ID := 7, dimension := 1, subColorsMatrix := [9] } ]

/-- The search of a worker in the scenario. -/
def scenarioSearch (picture : Picture) : Except Fault Logs :=
  workerSearch scenarioEngine scenarioObjects (fun _ => 0) [0] picture

/-- The coordinator of the scenario on three processes, given what its calls of `receiveLog`
return. -/
def scenarioMaster (received : List (Logs × Nat)) : Master :=
  master 3 scenarioPictures 1 (fun _ => { row := 0, column := 0 }) received

/-- The messages pending at rank 0 once worker 1 and worker 2 have each searched the picture of
the initial window sent to them and called `sendLog`. -/
def scenarioNetwork : Network :=
  [ [],
    (worker scenarioSearch (inboxOf 1 (scenarioMaster []).events)).sent,
    (worker scenarioSearch (inboxOf 2 (scenarioMaster []).events)).sent ]

/-- One way for MPI to match the ten receives of the two calls of `receiveLog`: the sources, in
order. Each source's messages are taken in the order they were sent. -/
def scenarioMatching : List Nat := [1, 2, 2, 2, 2, 2, 1, 1, 1, 1]

/-! ## The same input on two processes -/

/-- The triples `(pictureID, objectID, row, column)` of the filled slots of a collection of
entries, in collection and slot order. -/
def triples (logs : List Logs) : List (Int × Int × Int × Int) :=
  logs.flatMap (fun log =>
    (records log).map (fun r => (log.pictureID, r.objectID, r.position.row, r.position.column)))

/-- The coordinator of the scenario on two processes, with a single worker, given what its
calls of `receiveLog` return. -/
def soloMaster (received : List (Logs × Nat)) : Master :=
  master 2 scenarioPictures 1 (fun _ => { row := 0, column := 0 }) received

/-- What the first call of `receiveLog` returns on two processes: the worker has received the
picture of the initial window, searched it and called `sendLog`; all five receives are matched
with rank 1, the only sender. -/
def soloFirstReply : List (Logs × Nat) :=
  receiveLogs 1 [[], (worker scenarioSearch (inboxOf 1 (soloMaster []).events)).sent]
    (List.replicate 5 1)

/-- What the two calls of `receiveLog` return on two processes: after the first reply the
coordinator has sent the second picture, and the worker has answered both. -/
def soloReplies : List (Logs × Nat) :=
  receiveLogs 2
    [[], (worker scenarioSearch (inboxOf 1 (soloMaster soloFirstReply).events)).sent]
    (List.replicate 10 1)

/-! ## Runs in which a mixed reply makes `receiveLog` fail -/

/-- Two pictures, with ids 10 and -3. -/
def abortedPictures : List Picture :=
  [ { ID := 10, dimension := 2, colorsMatrix := [0, 9, 0, 0] },
    { ID := -3, dimension := 3, colorsMatrix := [0, 0, 0, 0, 0, 9, 0, 0, 0] } ]

/-- Three pictures, with ids 10, -3 and 7. -/
def abortedThreePictures : List Picture :=
  [ { ID := 10, dimension := 2, colorsMatrix := [0, 9, 0, 0] },
    { ID := -3, dimension := 3, colorsMatrix := [0, 0, 0, 0, 0, 9, 0, 0, 0] },
    { ID := 7, dimension := 3, colorsMatrix := [0, 0, 0, 0, 0, 9, 0, 0, 0] } ]

/-- The coordinator on three processes for `pictures` and the object of the scenario, given what
its calls of `receiveLog` return. -/
def abortedMaster (pictures : List Picture) (received : List (Logs × Nat)) : Master :=
  master 3 pictures 1 (fun _ => { row := 0, column := 0 }) received

/-- The messages pending at rank 0 once worker 1 and worker 2 have each searched the picture of
the initial window sent to them and called `sendLog`. -/
def abortedNetwork (pictures : List Picture) : Network :=
  [ [],
    (worker scenarioSearch (inboxOf 1 (abortedMaster pictures []).events)).sent,
    (worker scenarioSearch (inboxOf 2 (abortedMaster pictures []).events)).sent ]

/-- One way for MPI to match the receives of the first call of `receiveLog`: the first receive
with worker 1, the following ones with worker 2. -/
def abortedMatching : List Nat := [1, 2, 2, 2, 2]

end ImageRecognition

/-! # Theorems -/

namespace ImageRecognition

/-! ## The scenario with two workers -/

/-- C1, evaluated on the code: three processes, two pictures with ids 10 and 1. Both workers
receive their picture in the initial window and answer with `sendLog`; the receives of
`receiveLog` are matched with the sources `scenarioMatching`. The coordinator runs to its end
with two entries whose picture ids are 10 and 2: the picture with id 1 has no entry and 2 is not
the id of a picture. -/
theorem coverage_lost_when_replies_interleave :
    (scenarioMaster []).events <+: (scenarioMaster
        (receiveLogs 2 scenarioNetwork scenarioMatching)).events ∧
    (scenarioMaster (receiveLogs 2 scenarioNetwork scenarioMatching)).finished = true ∧
    (scenarioMaster (receiveLogs 2 scenarioNetwork scenarioMatching)).searchLogs.length = 2 ∧
    (scenarioMaster (receiveLogs 2 scenarioNetwork scenarioMatching)).searchLogs.map
        (fun log => log.pictureID) = [10, 2] ∧
    scenarioPictures.map (fun picture => picture.ID) = [10, 1] := by
  decide

/-- C3, evaluated on the code: worker 1 sends the entry `(10, 1, [7], [(0,1)])` and worker 2 the
entry `(1, 1, [7], [(1,2)])`. With its five receives matched with the sources 1, 2, 2, 2, 2 the
first call of `receiveLog` returns the entry `(10, 1, [1], [(7,1)])`, which is neither of the
two entries sent. -/
theorem receiveLog_mixes_entries_of_two_workers :
    sendLog { pictureID := 10, numObjectsFound := 1, objectIDs := [7],
              objectPositions := [{ row := 0, column := 1 }] } LOGS_TAG
      = scenarioNetwork[1]? ∧
    sendLog { pictureID := 1, numObjectsFound := 1, objectIDs := [7],
              objectPositions := [{ row := 1, column := 2 }] } LOGS_TAG
      = scenarioNetwork[2]? ∧
    (receiveLog LOGS_TAG scenarioNetwork scenarioMatching).map (fun r => (r.log, r.MPI_SOURCE))
      = some ({ pictureID := 10, numObjectsFound := 1, objectIDs := [1],
                objectPositions := [{ row := 7, column := 1 }] }, 2) := by
  decide

end ImageRecognition

namespace ImageRecognition

/-! ## findObjectsInPicture -/

theorem take_succ_set {α : Type} (l : List α) (n : Nat) (a : α) (h : n < l.length) :
    (l.set n a).take (n + 1) = l.take n ++ [a] := by
  induction l generalizing n with
  | nil => simp at h
  | cons x xs ih =>
    cases n with
    | zero => simp
    | succ k =>
      have hk : k < xs.length := by simpa using h
      simp [ih k hk]

theorem criticalSection_ok (picture : Picture) (object : Object) (u : Int) (log : Logs)
    (h1 : log.numObjectsFound < log.objectIDs.length)
    (h2 : log.numObjectsFound < log.objectPositions.length)
    (hd : ¬ divisionTraps u picture.dimension) :
    criticalSection picture object u log =
      .ok { pictureID := picture.ID
            numObjectsFound := log.numObjectsFound + 1
            objectIDs := log.objectIDs.set log.numObjectsFound object.ID
            objectPositions := log.objectPositions.set log.numObjectsFound
              { row := Int.tdiv u picture.dimension, column := Int.tmod u picture.dimension } } := by
  have hd0 : picture.dimension ≠ 0 := fun h => hd (Or.inl h)
  have hov : ¬ (u = INT_MIN ∧ picture.dimension = -1) := fun h => hd (Or.inr h)
  simp [criticalSection, h1, h2, hd0, hov]

theorem criticalSection_traps (picture : Picture) (object : Object) (u : Int) (log : Logs)
    (h1 : log.numObjectsFound < log.objectIDs.length)
    (hd : divisionTraps u picture.dimension) :
    ∃ f, criticalSection picture object u log = .error f ∧ f ≠ .outOfBounds := by
  by_cases hd0 : picture.dimension = 0
  · exact ⟨.divisionByZero, by simp [criticalSection, h1, hd0], by decide⟩
  · have hov : u = INT_MIN ∧ picture.dimension = -1 := by
      rcases hd with h | h
      · exact absurd h hd0
      · exact h
    exact ⟨.overflow, by simp [criticalSection, h1, hd0, hov], by decide⟩

theorem not_divisionTraps_of_pos (u dimension : Int) (hd : 0 < dimension) :
    ¬ divisionTraps u dimension := by
  rintro (h | ⟨_, h⟩) <;> omega

/-- No task's division traps on a picture of positive dimension. -/
theorem not_taskTraps_of_pos (engine : Picture → Object → Int) (picture : Picture)
    (objects : List Object) (hd : 0 < picture.dimension) (i : Nat) :
    ¬ taskTraps engine picture objects i := by
  unfold taskTraps
  cases objects[i]? with
  | none => simp
  | some object => exact fun h => not_divisionTraps_of_pos _ _ hd h.2

/-- One task, started with room left in both arrays: it leaves the entry alone when the engine
finds nothing, stops at the division when that has no result, and appends its record
otherwise. -/
theorem objectTask_spec (engine : Picture → Object → Int) (picture : Picture)
    (objects : List Object) (i : Nat) (log : Logs) (hi : i < objects.length)
    (h1 : log.numObjectsFound < log.objectIDs.length)
    (h2 : log.numObjectsFound < log.objectPositions.length) :
    (taskRecord engine picture objects i = none ∧ ¬ taskTraps engine picture objects i ∧
      objectTask engine picture objects i log = .ok log) ∨
    (taskTraps engine picture objects i ∧
      ∃ f, objectTask engine picture objects i log = .error f ∧ f ≠ .outOfBounds) ∨
    (¬ taskTraps engine picture objects i ∧
      ∃ r log', taskRecord engine picture objects i = some r ∧
      objectTask engine picture objects i log = .ok log' ∧
      log'.pictureID = picture.ID ∧
      log'.numObjectsFound = log.numObjectsFound + 1 ∧
      log'.objectIDs.length = log.objectIDs.length ∧
      log'.objectPositions.length = log.objectPositions.length ∧
      log'.objectIDs.take log'.numObjectsFound =
        log.objectIDs.take log.numObjectsFound ++ [r.objectID] ∧
      log'.objectPositions.take log'.numObjectsFound =
        log.objectPositions.take log.numObjectsFound ++ [r.position]) := by
  unfold objectTask taskRecord taskTraps
  rw [List.getElem?_eq_getElem hi]
  simp only
  by_cases hu : engine picture objects[i] = NOT_FOUND
  · left; simp [hu]
  · right
    by_cases hd : divisionTraps (engine picture objects[i]) picture.dimension
    · left
      refine ⟨⟨hu, hd⟩, ?_⟩
      rw [if_pos hu]
      exact criticalSection_traps _ _ _ _ h1 hd
    · right
      refine ⟨fun h => hd h.2, _, _, by simp [hu]; rfl,
        by rw [if_pos hu]; exact criticalSection_ok _ _ _ _ h1 h2 hd,
        rfl, rfl, by simp, by simp, ?_, ?_⟩
      · exact take_succ_set _ _ _ h1
      · exact take_succ_set _ _ _ h2

/-- The whole search, started with room for one record per task still to complete: it stops
without an entry exactly when the division of some task has no result, never by a write outside
the arrays, and otherwise ends with the records of the tasks appended in completion order. -/
theorem findObjectsInPicture_spec (engine : Picture → Object → Int) (picture : Picture)
    (objects : List Object) :
    ∀ (completion : List Nat) (log : Logs),
      (∀ i ∈ completion, i < objects.length) →
      log.numObjectsFound + completion.length ≤ log.objectIDs.length →
      log.numObjectsFound + completion.length ≤ log.objectPositions.length →
      ((∃ i ∈ completion, taskTraps engine picture objects i) ∧
        ∃ f, findObjectsInPicture engine picture objects completion log = .error f ∧
          f ≠ .outOfBounds) ∨
      ((∀ i ∈ completion, ¬ taskTraps engine picture objects i) ∧
        ∃ log', findObjectsInPicture engine picture objects completion log = .ok log' ∧
        log'.numObjectsFound = log.numObjectsFound +
          (completion.filterMap (taskRecord engine picture objects)).length ∧
        log'.objectIDs.length = log.objectIDs.length ∧
        log'.objectPositions.length = log.objectPositions.length ∧
        log'.objectIDs.take log'.numObjectsFound =
          log.objectIDs.take log.numObjectsFound ++
            (completion.filterMap (taskRecord engine picture objects)).map MatchRecord.objectID ∧
        log'.objectPositions.take log'.numObjectsFound =
          log.objectPositions.take log.numObjectsFound ++
            (completion.filterMap (taskRecord engine picture objects)).map MatchRecord.position)
  | [], log, _, _, _ => by
    right
    exact ⟨by simp, log, rfl, by simp, rfl, rfl, by simp, by simp⟩
  | i :: completion, log, hi, h1, h2 => by
    have hlen : (i :: completion).length = completion.length + 1 := rfl
    rw [hlen] at h1 h2
    have hi0 : i < objects.length := hi i (List.mem_cons_self _ _)
    have hrest : ∀ j ∈ completion, j < objects.length :=
      fun j hj => hi j (List.mem_cons_of_mem _ hj)
    rcases objectTask_spec engine picture objects i log hi0 (by omega) (by omega) with
      ⟨hnone, hnt, hrun⟩ | ⟨htrap, f, hrun, hf⟩ |
      ⟨hnt, r, log1, hsome, hrun, _, hnum, hl1, hl2, hids, hpos⟩
    · rcases findObjectsInPicture_spec engine picture objects completion log hrest
          (by omega) (by omega) with ⟨⟨j, hj, htj⟩, f, herr, hf⟩ |
          ⟨hall, log', hok, hn, ha, hb, hc, hd⟩
      · left
        exact ⟨⟨j, List.mem_cons_of_mem _ hj, htj⟩, f,
          by simp [findObjectsInPicture, hrun, herr], hf⟩
      · right
        refine ⟨?_, log', by simp [findObjectsInPicture, hrun, hok], ?_, ha, hb, ?_, ?_⟩
        · intro j hj
          rcases List.mem_cons.mp hj with rfl | hj
          · exact hnt
          · exact hall j hj
        · simpa [List.filterMap_cons, hnone] using hn
        · simpa [List.filterMap_cons, hnone] using hc
        · simpa [List.filterMap_cons, hnone] using hd
    · left
      exact ⟨⟨i, List.mem_cons_self _ _, htrap⟩, f, by simp [findObjectsInPicture, hrun], hf⟩
    · rcases findObjectsInPicture_spec engine picture objects completion log1 hrest
          (by omega) (by omega) with ⟨⟨j, hj, htj⟩, f, herr, hf⟩ |
          ⟨hall, log', hok, hn, ha, hb, hc, hd⟩
      · left
        exact ⟨⟨j, List.mem_cons_of_mem _ hj, htj⟩, f,
          by simp [findObjectsInPicture, hrun, herr], hf⟩
      · right
        refine ⟨?_, log', by simp [findObjectsInPicture, hrun, hok], ?_, by omega, by omega,
          ?_, ?_⟩
        · intro j hj
          rcases List.mem_cons.mp hj with rfl | hj
          · exact hnt
          · exact hall j hj
        · simp [List.filterMap_cons, hsome, hn, hnum]; omega
        · rw [hc, hids]; simp [List.filterMap_cons, hsome]
        · rw [hd, hpos]; simp [List.filterMap_cons, hsome]

end ImageRecognition

namespace ImageRecognition

theorem mem_lt_of_perm_range {completion : List Nat} {n : Nat}
    (hperm : completion.Perm (List.range n)) : ∀ i ∈ completion, i < n :=
  fun _ hi => List.mem_range.mp (hperm.subset hi)

theorem workerEntry_lengths (picture : Picture) (n : Nat) (heap : Nat → Int) :
    (workerEntry picture n heap).numObjectsFound = 0 ∧
    (workerEntry picture n heap).objectIDs.length = n ∧
    (workerEntry picture n heap).objectPositions.length = n := by
  simp [workerEntry]

/-- The search of a worker returns an entry when no task's division traps. -/
theorem search_returns (engine : Picture → Object → Int) (picture : Picture)
    (objects : List Object) (heap : Nat → Int) (completion : List Nat)
    (hperm : completion.Perm (List.range objects.length))
    (hd : ∀ i, i < objects.length → ¬ taskTraps engine picture objects i) :
    ∃ log, findObjectsInPicture engine picture objects completion
      (workerEntry picture objects.length heap) = .ok log := by
  have hmem := mem_lt_of_perm_range hperm
  have hlen : completion.length = objects.length := by simpa using hperm.length_eq
  obtain ⟨e0, e1, e2⟩ := workerEntry_lengths picture objects.length heap
  rcases findObjectsInPicture_spec engine picture objects completion
      (workerEntry picture objects.length heap) hmem (by omega) (by omega) with
    ⟨⟨i, hi, ht⟩, _⟩ | ⟨_, log, hok, _⟩
  · exact absurd ht (hd i (hmem i hi))
  · exact ⟨log, hok⟩

/-- C9: for every engine, picture, object list and completion order of the tasks (a permutation
of the task indices), the search started on the fresh entry of a worker never writes outside the
two arrays of length `numberOfObjects` (the model reports such a write as `outOfBounds`), and at
every point of the search `numObjectsFound` is at most `numberOfObjects` and not less than it
was at an earlier point. The search ends with an entry unless the division of helper.c:220 has
no result for a task that found its object (dimension zero, or `INT_MIN / -1`), which stops the
program; on a picture of positive dimension it always ends with an entry. -/
theorem numObjectsFound_bounded_and_monotone (engine : Picture → Object → Int)
    (picture : Picture) (objects : List Object) (heap : Nat → Int) (completion : List Nat)
    (hperm : completion.Perm (List.range objects.length)) :
    (∀ before after, completion = before ++ after →
      findObjectsInPicture engine picture objects before
          (workerEntry picture objects.length heap) ≠ .error .outOfBounds ∧
      ∀ log, findObjectsInPicture engine picture objects before
          (workerEntry picture objects.length heap) = .ok log →
        log.numObjectsFound ≤ objects.length ∧
        findObjectsInPicture engine picture objects after log ≠ .error .outOfBounds ∧
        ∀ log', findObjectsInPicture engine picture objects after log = .ok log' →
          log.numObjectsFound ≤ log'.numObjectsFound ∧
          log'.numObjectsFound ≤ objects.length) ∧
    ((∀ i, i < objects.length → ¬ taskTraps engine picture objects i) →
      ∃ log, findObjectsInPicture engine picture objects completion
          (workerEntry picture objects.length heap) = .ok log ∧
        log.numObjectsFound ≤ objects.length) ∧
    (0 < picture.dimension →
      ∃ log, findObjectsInPicture engine picture objects completion
          (workerEntry picture objects.length heap) = .ok log ∧
        log.numObjectsFound ≤ objects.length) ∧
    (∀ f, findObjectsInPicture engine picture objects completion
        (workerEntry picture objects.length heap) = .error f →
      f ≠ .outOfBounds ∧ ∃ i, i < objects.length ∧ taskTraps engine picture objects i) := by
  have hmem := mem_lt_of_perm_range hperm
  have hlen : completion.length = objects.length := by simpa using hperm.length_eq
  obtain ⟨e0, e1, e2⟩ := workerEntry_lengths picture objects.length heap
  have hreturns : (∀ i, i < objects.length → ¬ taskTraps engine picture objects i) →
      ∃ log, findObjectsInPicture engine picture objects completion
          (workerEntry picture objects.length heap) = .ok log ∧
        log.numObjectsFound ≤ objects.length := by
    intro hd
    rcases findObjectsInPicture_spec engine picture objects completion
        (workerEntry picture objects.length heap) hmem (by omega) (by omega) with
      ⟨⟨i, hi, ht⟩, _⟩ | ⟨_, log, hok, hn, _, _, _, _⟩
    · exact absurd ht (hd i (hmem i hi))
    · have hle := List.length_filterMap_le (taskRecord engine picture objects) completion
      exact ⟨log, hok, by omega⟩
  refine ⟨?_, hreturns, fun hd => hreturns (fun i _ => not_taskTraps_of_pos _ _ _ hd i), ?_⟩
  · intro before after hsplit
    subst hsplit
    have hl : before.length + after.length = objects.length := by simpa using hlen
    have hb : ∀ i ∈ before, i < objects.length :=
      fun i hi => hmem i (List.mem_append_left _ hi)
    have ha : ∀ i ∈ after, i < objects.length :=
      fun i hi => hmem i (List.mem_append_right _ hi)
    rcases findObjectsInPicture_spec engine picture objects before
        (workerEntry picture objects.length heap) hb (by omega) (by omega) with
      ⟨_, f, herr, hf⟩ | ⟨_, log1, hok, hn, hl1, hl2, _, _⟩
    · rw [herr]
      exact ⟨by simpa using hf, fun log h => by simp at h⟩
    · rw [hok]
      refine ⟨by simp, ?_⟩
      intro log hlog
      have hEq : log1 = log := by simpa using hlog
      subst hEq
      have hle := List.length_filterMap_le (taskRecord engine picture objects) before
      have hnum : log1.numObjectsFound ≤ before.length := by omega
      refine ⟨by omega, ?_⟩
      rcases findObjectsInPicture_spec engine picture objects after log1 ha
          (by omega) (by omega) with ⟨_, f, herr, hf⟩ | ⟨_, log2, hok2, hn2, _, _, _, _⟩
      · rw [herr]
        exact ⟨by simpa using hf, fun log' h => by simp at h⟩
      · rw [hok2]
        refine ⟨by simp, ?_⟩
        intro log' hlog'
        have hEq : log2 = log' := by simpa using hlog'
        subst hEq
        have hle2 := List.length_filterMap_le (taskRecord engine picture objects) after
        exact ⟨by omega, by omega⟩
  · intro f herr
    rcases findObjectsInPicture_spec engine picture objects completion
        (workerEntry picture objects.length heap) hmem (by omega) (by omega) with
      ⟨⟨i, hi, ht⟩, f', herr', hf⟩ | ⟨_, log, hok, _⟩
    · rw [herr'] at herr
      have hEq : f' = f := by simpa using herr
      subst hEq
      exact ⟨hf, i, hmem i hi, ht⟩
    · rw [hok] at herr; simp at herr

/-- C9 at a concrete search: two objects, both found, the task of the second one first. -/
theorem numObjectsFound_bounded_and_monotone_witness :
    [1, 0].Perm (List.range 2) ∧
    ∃ log, findObjectsInPicture (fun _ _ => 5) { ID := 10, dimension := 4, colorsMatrix := [] }
        [{ ID := 7, dimension := 2, subColorsMatrix := [] },
         { ID := 8, dimension := 2, subColorsMatrix := [] }] [1, 0]
        (workerEntry { ID := 10, dimension := 4, colorsMatrix := [] } 2 (fun _ => 0)) = .ok log ∧
      log.numObjectsFound ≤ 2 :=
  ⟨by decide,
   (numObjectsFound_bounded_and_monotone (fun _ _ => 5)
      { ID := 10, dimension := 4, colorsMatrix := [] }
      [{ ID := 7, dimension := 2, subColorsMatrix := [] },
       { ID := 8, dimension := 2, subColorsMatrix := [] }] (fun _ => 0) [1, 0]
      (by decide)).2.2.1 (by decide)⟩

end ImageRecognition

namespace ImageRecognition

/-- The two cases in which the division of helper.c:220 stops the search: a picture of dimension
zero, and the answer `INT_MIN` on a picture of dimension -1. -/
theorem division_without_result_stops_search :
    findObjectsInPicture (fun _ _ => 0) { ID := 10, dimension := 0, colorsMatrix := [] }
        [{ ID := 7, dimension := 0, subColorsMatrix := [] }] [0]
        (workerEntry { ID := 10, dimension := 0, colorsMatrix := [] } 1 (fun _ => 0))
      = .error .divisionByZero ∧
    findObjectsInPicture (fun _ _ => INT_MIN) { ID := 10, dimension := -1, colorsMatrix := [0] }
        [{ ID := 7, dimension := 1, subColorsMatrix := [0] }] [0]
        (workerEntry { ID := 10, dimension := -1, colorsMatrix := [0] } 1 (fun _ => 0))
      = .error .overflow := by
  decide

/-- The filled slots of the entry a search ends with are the records of the tasks, in
completion order. -/
theorem records_of_search (engine : Picture → Object → Int) (picture : Picture)
    (objects : List Object) (heap : Nat → Int) (completion : List Nat)
    (hperm : completion.Perm (List.range objects.length)) (log : Logs)
    (hok : findObjectsInPicture engine picture objects completion
      (workerEntry picture objects.length heap) = .ok log) :
    records log = completion.filterMap (taskRecord engine picture objects) ∧
    log.numObjectsFound = (completion.filterMap (taskRecord engine picture objects)).length ∧
    log.objectIDs.take log.numObjectsFound =
      (completion.filterMap (taskRecord engine picture objects)).map MatchRecord.objectID := by
  have hmem := mem_lt_of_perm_range hperm
  have hlen : completion.length = objects.length := by simpa using hperm.length_eq
  obtain ⟨e0, e1, e2⟩ := workerEntry_lengths picture objects.length heap
  rcases findObjectsInPicture_spec engine picture objects completion
      (workerEntry picture objects.length heap) hmem (by omega) (by omega) with
    ⟨_, f, herr, _⟩ | ⟨_, log1, hok1, hn, _, _, hids, hpos⟩
  · rw [herr] at hok; simp at hok
  · rw [hok1] at hok
    have hEq : log1 = log := by simpa using hok
    subst hEq
    rw [e0] at hids hpos hn
    simp only [List.take_zero, List.nil_append, Nat.zero_add] at hids hpos hn
    refine ⟨?_, hn, hids⟩
    unfold records
    rw [List.take_zipWith, hids, hpos]
    generalize completion.filterMap (taskRecord engine picture objects) = rs
    induction rs with
    | nil => rfl
    | cons r rs ih => simp [ih]

theorem map_filter_isSome {α β : Type} (f : α → Option β) (l : List α) :
    (l.filter (fun a => (f a).isSome)).map f = (l.filterMap f).map some := by
  induction l with
  | nil => rfl
  | cons a l ih =>
    cases h : f a with
    | none => simp [List.filter_cons, List.filterMap_cons, h, ih]
    | some b => simp [List.filter_cons, List.filterMap_cons, h, ih]

/-- C8 as stated fails: two objects of the input carry the id 7, both are found in the picture,
and the entry holds the id 7 in both filled slots. -/
theorem duplicate_ids_reported_twice :
    ∃ log, findObjectsInPicture (fun _ _ => 1)
        { ID := 10, dimension := 2, colorsMatrix := [0, 9, 0, 0] }
        [{ ID := 7, dimension := 1, subColorsMatrix := [9] },
         { ID := 7, dimension := 1, subColorsMatrix := [9] }] [0, 1]
        (workerEntry { ID := 10, dimension := 2, colorsMatrix := [0, 9, 0, 0] } 2 (fun _ => 0))
        = .ok log ∧
      log.numObjectsFound = 2 ∧ log.objectIDs = [7, 7] ∧
      ¬ (log.objectIDs.take log.numObjectsFound).Nodup :=
  ⟨{ pictureID := 10, numObjectsFound := 2, objectIDs := [7, 7],
     objectPositions := [{ row := 0, column := 1 }, { row := 0, column := 1 }] },
   by decide, rfl, rfl, by decide⟩

/-- C8, amended: for every engine and every completion order, (1) the filled slots of the entry
a search ends with are the records of pairwise distinct tasks, slot `k` holding the record of
task `tasks[k]`: every task, that is every object of the input list, contributes at most one
record, whatever the ids; (2) when the ids of the input objects are pairwise distinct, the
object ids in the filled slots are pairwise distinct; (3) the search ends with an entry when no
task's division traps, in particular on every picture of positive dimension. -/
theorem filled_ids_distinct (engine : Picture → Object → Int) (picture : Picture)
    (objects : List Object) (heap : Nat → Int) (completion : List Nat)
    (hperm : completion.Perm (List.range objects.length)) :
    (∀ log, findObjectsInPicture engine picture objects completion
        (workerEntry picture objects.length heap) = .ok log →
      (∃ tasks : List Nat, tasks.Nodup ∧ tasks.Sublist completion ∧
        (∀ i ∈ tasks, i < objects.length) ∧
        tasks.length = log.numObjectsFound ∧
        tasks.map (taskRecord engine picture objects) = (records log).map some) ∧
      ((objects.map (fun object => object.ID)).Nodup →
        (log.objectIDs.take log.numObjectsFound).Nodup)) ∧
    ((∀ i, i < objects.length → ¬ taskTraps engine picture objects i) →
      ∃ log, findObjectsInPicture engine picture objects completion
        (workerEntry picture objects.length heap) = .ok log) ∧
    (0 < picture.dimension →
      ∃ log, findObjectsInPicture engine picture objects completion
        (workerEntry picture objects.length heap) = .ok log) := by
  have hmem := mem_lt_of_perm_range hperm
  have hnd : completion.Nodup := (hperm.nodup_iff).mpr (List.nodup_range _)
  refine ⟨?_, search_returns engine picture objects heap completion hperm,
    fun hd => search_returns engine picture objects heap completion hperm
      (fun i _ => not_taskTraps_of_pos _ _ _ hd i)⟩
  intro log hok
  obtain ⟨hrec, hnum, hI⟩ := records_of_search engine picture objects heap completion hperm
    log hok
  constructor
  · refine ⟨completion.filter (fun i => (taskRecord engine picture objects i).isSome),
      hnd.filter _, List.filter_sublist _, fun i hi => hmem i (List.mem_of_mem_filter hi),
      ?_, ?_⟩
    · have h := congrArg List.length
        (map_filter_isSome (taskRecord engine picture objects) completion)
      simp only [List.length_map] at h
      rw [h, hnum]
    · rw [map_filter_isSome, hrec]
  · intro hids
    rw [hI, List.map_filterMap]
    refine List.Nodup.filterMap ?_ hnd
    intro i j b hi hj
    simp only [Option.mem_def, Option.map_eq_some', taskRecord] at hi hj
    obtain ⟨ri, hri, hbi⟩ := hi
    obtain ⟨rj, hrj, hbj⟩ := hj
    cases hoi : objects[i]? with
    | none => simp [hoi] at hri
    | some oi =>
      cases hoj : objects[j]? with
      | none => simp [hoj] at hrj
      | some oj =>
        simp only [hoi, hoj] at hri hrj
        split at hri <;> simp at hri
        split at hrj <;> simp at hrj
        have h1 : oi.ID = b := by rw [← hbi, ← hri]
        have h2 : oj.ID = b := by rw [← hbj, ← hrj]
        have hi' : (objects.map (fun object => object.ID))[i]? = some b := by
          simp [List.getElem?_map, hoi, h1]
        have hj' : (objects.map (fun object => object.ID))[j]? = some b := by
          simp [List.getElem?_map, hoj, h2]
        obtain ⟨hil, hie⟩ := List.getElem?_eq_some.mp hi'
        obtain ⟨hjl, hje⟩ := List.getElem?_eq_some.mp hj'
        exact (List.Nodup.getElem_inj_iff hids).mp (hie.trans hje.symm)

/-- C8, amended, at a concrete search: two objects with the ids 7 and 8, both found. -/
theorem filled_ids_distinct_witness :
    [1, 0].Perm (List.range 2) ∧
    ∃ log, findObjectsInPicture (fun _ _ => 5) { ID := 10, dimension := 4, colorsMatrix := [] }
        [{ ID := 7, dimension := 2, subColorsMatrix := [] },
         { ID := 8, dimension := 2, subColorsMatrix := [] }] [1, 0]
        (workerEntry { ID := 10, dimension := 4, colorsMatrix := [] } 2 (fun _ => 0)) = .ok log :=
  ⟨by decide,
   (filled_ids_distinct (fun _ _ => 5) { ID := 10, dimension := 4, colorsMatrix := [] }
      [{ ID := 7, dimension := 2, subColorsMatrix := [] },
       { ID := 8, dimension := 2, subColorsMatrix := [] }] (fun _ => 0) [1, 0]
      (by decide)).2.2 (by decide)⟩

end ImageRecognition

namespace ImageRecognition

end ImageRecognition

namespace ImageRecognition

end ImageRecognition

namespace ImageRecognition

/-! ## The coordinator -/

theorem dispatchedIndices_append (a b : List Event) :
    dispatchedIndices (a ++ b) = dispatchedIndices a ++ dispatchedIndices b := by
  induction a with
  | nil => rfl
  | cons e a ih => cases e <;> simp [dispatchedIndices, ih]

theorem dispatchesTo_append (rank : Nat) (a b : List Event) :
    dispatchesTo rank (a ++ b) = dispatchesTo rank a ++ dispatchesTo rank b := by
  induction a with
  | nil => rfl
  | cons e a ih =>
    cases e with
    | sendIndex d t k => simp [dispatchesTo, ih]
    | sendPicture d k p =>
      by_cases h : d = rank <;> simp [dispatchesTo, ih, h]
    | receiveLog slot src => simp [dispatchesTo, ih]

theorem inboxOf_append (rank : Nat) (a b : List Event) :
    inboxOf rank (a ++ b) = inboxOf rank a ++ inboxOf rank b := by
  simp [inboxOf]

theorem pictureMessages_append (a b : List (Nat × Picture)) :
    pictureMessages (a ++ b) = pictureMessages a ++ pictureMessages b := by
  simp [pictureMessages]

theorem redispatches_old (pictures : List Picture) (old new : List Event)
    (h : Redispatches pictures old) (j : Nat) (hj : j < old.length) (slot source : Nat)
    (he : (old ++ new)[j]? = some (Event.receiveLog slot source))
    (hk : (dispatchedIndices ((old ++ new).take j)).length < pictures.length) :
    ∃ picture, pictures[(dispatchedIndices ((old ++ new).take j)).length]? = some picture ∧
      (old ++ new)[j + 1]? = some (Event.sendIndex source PICTURE_TAG
        (dispatchedIndices ((old ++ new).take j)).length) ∧
      (old ++ new)[j + 2]? = some (Event.sendPicture source
        (dispatchedIndices ((old ++ new).take j)).length picture) := by
  have ht : (old ++ new).take j = old.take j := List.take_append_of_le_length (le_of_lt hj)
  rw [ht] at hk ⊢
  rw [List.getElem?_append_left hj] at he
  obtain ⟨picture, h0, h1, h2⟩ := h j slot source he hk
  have l1 : j + 1 < old.length := (List.getElem?_eq_some.mp h1).1
  have l2 : j + 2 < old.length := (List.getElem?_eq_some.mp h2).1
  exact ⟨picture, h0, by rw [List.getElem?_append_left l1]; exact h1,
    by rw [List.getElem?_append_left l2]; exact h2⟩

theorem redispatches_append_sends (pictures : List Picture) (old new : List Event)
    (h : Redispatches pictures old)
    (hnew : ∀ e ∈ new, ∀ slot source, e ≠ Event.receiveLog slot source) :
    Redispatches pictures (old ++ new) := by
  intro j slot source he hk
  by_cases hj : j < old.length
  · exact redispatches_old pictures old new h j hj slot source he hk
  · exfalso
    rw [List.getElem?_append_right (not_lt.mp hj)] at he
    obtain ⟨hl, hv⟩ := List.getElem?_eq_some.mp he
    exact hnew _ (hv ▸ List.getElem_mem hl) slot source rfl

theorem redispatches_append_dispatch (pictures : List Picture) (old : List Event)
    (h : Redispatches pictures old) (slot source : Nat) (picture : Picture)
    (hp : pictures[(dispatchedIndices old).length]? = some picture) :
    Redispatches pictures (old ++ Event.receiveLog slot source ::
      dispatch source (dispatchedIndices old).length picture) := by
  intro j slot' source' he hk
  by_cases hj : j < old.length
  · exact redispatches_old pictures old _ h j hj slot' source' he hk
  · have hge : old.length ≤ j := not_lt.mp hj
    rw [List.getElem?_append_right hge] at he
    obtain ⟨d, rfl⟩ : ∃ d, j = old.length + d := ⟨j - old.length, by omega⟩
    simp only [Nat.add_sub_cancel_left] at he
    match d, he with
    | 0, he =>
      simp only [List.getElem?_cons_zero, Option.some.injEq, Event.receiveLog.injEq] at he
      obtain ⟨_, rfl⟩ := he
      have ht : (old ++ Event.receiveLog slot source ::
          dispatch source (dispatchedIndices old).length picture).take (old.length + 0) = old := by
        simp
      rw [ht]
      refine ⟨picture, hp, ?_, ?_⟩
      · rw [List.getElem?_append_right (by omega)]
        simp [dispatch]
      · rw [List.getElem?_append_right (by omega)]
        simp [dispatch]
    | 1, he => simp [dispatch] at he
    | 2, he => simp [dispatch] at he
    | d + 3, he => simp [dispatch] at he

theorem redispatches_append_collect (pictures : List Picture) (old : List Event)
    (h : Redispatches pictures old) (slot source : Nat)
    (hall : pictures.length ≤ (dispatchedIndices old).length) :
    Redispatches pictures (old ++ [Event.receiveLog slot source]) := by
  intro j slot' source' he hk
  by_cases hj : j < old.length
  · exact redispatches_old pictures old _ h j hj slot' source' he hk
  · exfalso
    have hge : old.length ≤ j := not_lt.mp hj
    rw [List.getElem?_append_right hge] at he
    obtain ⟨d, rfl⟩ : ∃ d, j = old.length + d := ⟨j - old.length, by omega⟩
    simp only [Nat.add_sub_cancel_left] at he
    match d, he with
    | 0, _ =>
      have ht : (old ++ [Event.receiveLog slot source]).take (old.length + 0) = old := by simp
      rw [ht] at hk
      omega
    | d + 1, he => simp at he

end ImageRecognition

namespace ImageRecognition

theorem dispatchedIndices_dispatch (dest k : Nat) (picture : Picture) :
    dispatchedIndices (dispatch dest k picture) = [k] := rfl

theorem dispatchesTo_dispatch (rank dest k : Nat) (picture : Picture) :
    dispatchesTo rank (dispatch dest k picture) = if dest = rank then [(k, picture)] else [] := by
  by_cases h : dest = rank <;> simp [dispatch, dispatchesTo, h]

theorem inboxOf_dispatch (rank dest k : Nat) (picture : Picture) :
    inboxOf rank (dispatch dest k picture) =
      pictureMessages (if dest = rank then [(k, picture)] else []) := by
  by_cases h : dest = rank <;> simp [dispatch, inboxOf, messagesTo, pictureMessages, h]

/-- The invariant survives the two sends of a dispatch. -/
theorem invariant_after_dispatch (size : Nat) (pictures : List Picture) (s : Master)
    (h : MasterInvariant size pictures s) (dest : Nat) (picture : Picture)
    (hp : pictures[s.pictureIndex]? = some picture)
    (hroom : s.pictureIndex + 1 ≤ s.logsIndex + (size - 1)) :
    MasterInvariant size pictures
      { s with events := s.events ++ dispatch dest s.pictureIndex picture
               pictureIndex := s.pictureIndex + 1
               points := s.points ++ [(s.pictureIndex + 1, s.logsIndex)] } := by
  have hlt : s.pictureIndex < pictures.length := (List.getElem?_eq_some.mp hp).1
  refine ⟨?_, hroom, hlt, ?_, ?_, ?_, ?_, ?_, h.slots, h.running⟩
  · exact Nat.le_succ_of_le h.answered_le
  · intro p hmem
    rcases List.mem_append.mp hmem with hold | hnew
    · exact h.points_ok p hold
    · simp only [List.mem_singleton] at hnew
      subst hnew
      exact hroom
  · show dispatchedIndices (s.events ++ dispatch dest s.pictureIndex picture) = _
    rw [dispatchedIndices_append, h.dispatched, dispatchedIndices_dispatch, List.range_succ]
  · intro rank d hd
    change d ∈ dispatchesTo rank (s.events ++ dispatch dest s.pictureIndex picture) at hd
    rw [dispatchesTo_append, dispatchesTo_dispatch] at hd
    rcases List.mem_append.mp hd with hold | hnew
    · exact h.carried rank d hold
    · split at hnew
      · simp only [List.mem_singleton] at hnew
        subst hnew
        exact hp
      · simp at hnew
  · exact redispatches_append_sends pictures _ _ h.redispatch
      (by intro e he slot source; simp [dispatch] at he; rcases he with rfl | rfl <;> simp)
  · intro rank
    show inboxOf rank (s.events ++ dispatch dest s.pictureIndex picture) =
      pictureMessages (dispatchesTo rank (s.events ++ dispatch dest s.pictureIndex picture))
    rw [inboxOf_append, dispatchesTo_append, pictureMessages_append, h.inbox rank,
      inboxOf_dispatch, dispatchesTo_dispatch]

/-- The invariant survives the storing of a received entry. -/
theorem invariant_after_receive (size : Nat) (pictures : List Picture) (s : Master)
    (h : MasterInvariant size pictures s) (log : Logs) (source : Nat)
    (hall : s.pictureIndex = pictures.length) (hmore : s.logsIndex < pictures.length) :
    MasterInvariant size pictures
      { s with searchLogs := s.searchLogs.set s.logsIndex log
               logsIndex := s.logsIndex + 1
               events := s.events ++ [Event.receiveLog s.logsIndex source]
               points := s.points ++ [(s.pictureIndex, s.logsIndex + 1)] } := by
  refine ⟨?_, ?_, h.sent_le, ?_, ?_, ?_, ?_, ?_, ?_, h.running⟩
  · show s.logsIndex + 1 ≤ s.pictureIndex
    omega
  · have := h.in_flight
    show s.pictureIndex ≤ s.logsIndex + 1 + (size - 1)
    omega
  · intro p hmem
    rcases List.mem_append.mp hmem with hold | hnew
    · exact h.points_ok p hold
    · simp only [List.mem_singleton] at hnew
      subst hnew
      have := h.in_flight
      show s.pictureIndex ≤ s.logsIndex + 1 + (size - 1)
      omega
  · show dispatchedIndices (s.events ++ [Event.receiveLog s.logsIndex source]) = _
    rw [dispatchedIndices_append, h.dispatched]
    simp [dispatchedIndices]
  · intro rank d hd
    change d ∈ dispatchesTo rank (s.events ++ [Event.receiveLog s.logsIndex source]) at hd
    rw [dispatchesTo_append] at hd
    simp only [dispatchesTo, List.append_nil] at hd
    exact h.carried rank d hd
  · refine redispatches_append_collect pictures _ h.redispatch _ _ ?_
    rw [h.dispatched, List.length_range, hall]
  · intro rank
    show inboxOf rank (s.events ++ [Event.receiveLog s.logsIndex source]) =
      pictureMessages (dispatchesTo rank (s.events ++ [Event.receiveLog s.logsIndex source]))
    rw [inboxOf_append, dispatchesTo_append, h.inbox rank]
    simp [inboxOf, messagesTo, dispatchesTo]
  · show (s.searchLogs.set s.logsIndex log).length = pictures.length
    rw [List.length_set]
    exact h.slots

/-- The invariant survives an iteration of the dispatch loop. -/
theorem invariant_after_redispatch (size : Nat) (pictures : List Picture) (s : Master)
    (h : MasterInvariant size pictures s) (log : Logs) (source : Nat) (picture : Picture)
    (hp : pictures[s.pictureIndex]? = some picture) :
    MasterInvariant size pictures
      { s with searchLogs := s.searchLogs.set s.logsIndex log
               logsIndex := s.logsIndex + 1
               events := s.events ++ Event.receiveLog s.logsIndex source ::
                 dispatch source s.pictureIndex picture
               pictureIndex := s.pictureIndex + 1
               points := s.points ++ [(s.pictureIndex, s.logsIndex + 1),
                                      (s.pictureIndex + 1, s.logsIndex + 1)] } := by
  have hlt : s.pictureIndex < pictures.length := (List.getElem?_eq_some.mp hp).1
  have ha := h.answered_le
  have hf := h.in_flight
  refine ⟨?_, ?_, hlt, ?_, ?_, ?_, ?_, ?_, ?_, h.running⟩
  · show s.logsIndex + 1 ≤ s.pictureIndex + 1
    omega
  · show s.pictureIndex + 1 ≤ s.logsIndex + 1 + (size - 1)
    omega
  · intro p hmem
    rcases List.mem_append.mp hmem with hold | hnew
    · exact h.points_ok p hold
    · simp only [List.mem_cons, List.mem_singleton, List.not_mem_nil, or_false] at hnew
      rcases hnew with rfl | rfl
      · show s.pictureIndex ≤ s.logsIndex + 1 + (size - 1)
        omega
      · show s.pictureIndex + 1 ≤ s.logsIndex + 1 + (size - 1)
        omega
  · show dispatchedIndices (s.events ++ Event.receiveLog s.logsIndex source ::
      dispatch source s.pictureIndex picture) = _
    rw [dispatchedIndices_append, h.dispatched, List.range_succ]
    rfl
  · intro rank d hd
    change d ∈ dispatchesTo rank (s.events ++ Event.receiveLog s.logsIndex source ::
      dispatch source s.pictureIndex picture) at hd
    rw [dispatchesTo_append] at hd
    rcases List.mem_append.mp hd with hold | hnew
    · exact h.carried rank d hold
    · change d ∈ dispatchesTo rank (dispatch source s.pictureIndex picture) at hnew
      rw [dispatchesTo_dispatch] at hnew
      split at hnew
      · simp only [List.mem_singleton] at hnew
        subst hnew
        exact hp
      · simp at hnew
  · have hk : (dispatchedIndices s.events).length = s.pictureIndex := by
      rw [h.dispatched, List.length_range]
    have := redispatches_append_dispatch pictures s.events h.redispatch s.logsIndex source
      picture (by rw [hk]; exact hp)
    rw [hk] at this
    exact this
  · intro rank
    show inboxOf rank (s.events ++ Event.receiveLog s.logsIndex source ::
        dispatch source s.pictureIndex picture) =
      pictureMessages (dispatchesTo rank (s.events ++ Event.receiveLog s.logsIndex source ::
        dispatch source s.pictureIndex picture))
    rw [inboxOf_append, dispatchesTo_append, pictureMessages_append, h.inbox rank]
    congr 1
    change inboxOf rank (dispatch source s.pictureIndex picture) =
      pictureMessages (dispatchesTo rank (dispatch source s.pictureIndex picture))
    rw [inboxOf_dispatch, dispatchesTo_dispatch]
  · show (s.searchLogs.set s.logsIndex log).length = pictures.length
    rw [List.length_set]
    exact h.slots

end ImageRecognition

namespace ImageRecognition

/-- The loop of the initial window keeps the invariant and receives nothing. -/
theorem initialWindow_invariant (size : Nat) (pictures : List Picture) :
    ∀ (iterations i : Nat) (s : Master), MasterInvariant size pictures s →
      s.logsIndex = 0 → s.pictureIndex + 1 ≤ i →
      MasterInvariant size pictures (initialWindow size pictures iterations i s) ∧
      (initialWindow size pictures iterations i s).logsIndex = 0
  | 0, _, s, h, h0, _ => ⟨h, h0⟩
  | iterations + 1, i, s, h, h0, hi => by
    unfold initialWindow
    split
    · rename_i hguard
      cases hp : pictures[s.pictureIndex]? with
      | none => exact ⟨h, h0⟩
      | some picture =>
        simp only
        exact initialWindow_invariant size pictures iterations (i + 1) _
          (invariant_after_dispatch size pictures s h i picture hp (by omega)) h0
          (by show s.pictureIndex + 1 + 1 ≤ i + 1; omega)
    · exact ⟨h, h0⟩

/-- The dispatch loop keeps the invariant; it is left normally only with every picture sent,
and it is left normally when there is a reply for every picture not yet answered. -/
theorem dispatchLoop_invariant (size : Nat) (pictures : List Picture) :
    ∀ (received : List (Logs × Nat)) (s : Master), MasterInvariant size pictures s →
      MasterInvariant size pictures (dispatchLoop pictures received s).1 ∧
      (∀ rest, (dispatchLoop pictures received s).2 = some rest →
        (dispatchLoop pictures received s).1.pictureIndex = pictures.length) ∧
      (pictures.length ≤ received.length + s.logsIndex →
        ∃ rest, (dispatchLoop pictures received s).2 = some rest ∧
          pictures.length ≤ rest.length + (dispatchLoop pictures received s).1.logsIndex)
  | [], s, h => by
    unfold dispatchLoop
    split
    · rename_i hlt
      refine ⟨h, by simp, ?_⟩
      intro hlen
      have := h.answered_le
      simp at hlen
      omega
    · rename_i hge
      have := h.sent_le
      exact ⟨h, fun _ _ => by show s.pictureIndex = _; omega, fun hlen => ⟨[], rfl, hlen⟩⟩
  | (log, source) :: received, s, h => by
    unfold dispatchLoop
    split
    · rename_i hlt
      cases hp : pictures[s.pictureIndex]? with
      | none =>
        exfalso
        rw [List.getElem?_eq_getElem hlt] at hp
        simp at hp
      | some picture =>
        simp only
        obtain ⟨h1, h2, h3⟩ := dispatchLoop_invariant size pictures received _
          (invariant_after_redispatch size pictures s h log source picture hp)
        refine ⟨h1, h2, ?_⟩
        intro hlen
        apply h3
        simp only [List.length_cons] at hlen
        show pictures.length ≤ received.length + (s.logsIndex + 1)
        omega
    · rename_i hge
      have := h.sent_le
      exact ⟨h, fun _ _ => by show s.pictureIndex = _; omega,
        fun hlen => ⟨(log, source) :: received, rfl, hlen⟩⟩

/-- The collection loop keeps the invariant; it is left normally only with every entry
received, and it is left normally when there is a reply for every picture not yet answered. -/
theorem collectLoop_invariant (size : Nat) (pictures : List Picture) :
    ∀ (received : List (Logs × Nat)) (s : Master), MasterInvariant size pictures s →
      s.pictureIndex = pictures.length →
      MasterInvariant size pictures (collectLoop pictures.length received s).1 ∧
      (collectLoop pictures.length received s).1.pictureIndex = pictures.length ∧
      (∀ rest, (collectLoop pictures.length received s).2 = some rest →
        (collectLoop pictures.length received s).1.logsIndex = pictures.length) ∧
      (pictures.length ≤ received.length + s.logsIndex →
        ∃ rest, (collectLoop pictures.length received s).2 = some rest)
  | [], s, h, hall => by
    unfold collectLoop
    split
    · rename_i hlt
      refine ⟨h, hall, by simp, ?_⟩
      intro hlen
      simp at hlen
      omega
    · rename_i hge
      have := h.answered_le
      exact ⟨h, hall, fun _ _ => by show s.logsIndex = _; omega, fun _ => ⟨[], rfl⟩⟩
  | (log, source) :: received, s, h, hall => by
    unfold collectLoop
    split
    · rename_i hlt
      obtain ⟨h1, h2, h3, h4⟩ := collectLoop_invariant size pictures received _
        (invariant_after_receive size pictures s h log source hall hlt) hall
      refine ⟨h1, h2, h3, ?_⟩
      intro hlen
      apply h4
      simp only [List.length_cons] at hlen
      show pictures.length ≤ received.length + (s.logsIndex + 1)
      omega
    · rename_i hge
      have := h.answered_le
      exact ⟨h, hall, fun _ _ => by show s.logsIndex = _; omega,
        fun _ => ⟨(log, source) :: received, rfl⟩⟩

/-- The invariant holds before the initial window. -/
theorem invariant_initially (size : Nat) (pictures : List Picture) (numberOfObjects : Nat)
    (heap : Nat → Position) :
    MasterInvariant size pictures
      { pictureIndex := 0, logsIndex := 0
        searchLogs := initialLogs pictures numberOfObjects heap
        events := [], points := [(0, 0)], finished := false } := by
  refine ⟨le_refl _, Nat.zero_le _, Nat.zero_le _, ?_, rfl, ?_, ?_, ?_, ?_, rfl⟩
  · intro p hp
    simp only [List.mem_singleton] at hp
    subst hp
    exact Nat.zero_le _
  · intro rank d hd
    simp [dispatchesTo] at hd
  · intro j slot source he
    simp at he
  · intro rank
    rfl
  · simp [initialLogs]

/-- The coordinator: it either stops in a `receiveLog` that does not return (there are fewer
replies than pictures), with the invariant in force, or it comes out of both loops with every
picture sent and every entry received, and runs the terminate loop. -/
theorem master_spec (size : Nat) (pictures : List Picture) (numberOfObjects : Nat)
    (heap : Nat → Position) (received : List (Logs × Nat)) :
    ((master size pictures numberOfObjects heap received).finished = false ∧
      received.length < pictures.length ∧
      MasterInvariant size pictures (master size pictures numberOfObjects heap received)) ∨
    (∃ s, MasterInvariant size pictures s ∧ s.pictureIndex = pictures.length ∧
      s.logsIndex = pictures.length ∧
      master size pictures numberOfObjects heap received = terminateAll size s) := by
  obtain ⟨hw, hw0⟩ := initialWindow_invariant size pictures (size - 1) 1 _
    (invariant_initially size pictures numberOfObjects heap) rfl (le_refl _)
  obtain ⟨hd1, hd2, hd3⟩ := dispatchLoop_invariant size pictures received _ hw
  unfold master
  simp only
  generalize initialWindow size pictures (size - 1) 1 _ = s1 at hw hw0 hd1 hd2 hd3 ⊢
  rcases hdl : dispatchLoop pictures received s1 with ⟨s2, o2⟩
  rw [hdl] at hd1 hd2 hd3
  cases o2 with
  | none =>
    left
    refine ⟨hd1.running, ?_, hd1⟩
    by_contra hlen
    obtain ⟨rest, hrest, _⟩ := hd3 (by omega)
    simp at hrest
  | some received2 =>
    simp only
    have hall : s2.pictureIndex = pictures.length := hd2 received2 rfl
    obtain ⟨hc1, hc2, hc3, hc4⟩ := collectLoop_invariant size pictures received2 s2 hd1 hall
    rcases hcl : collectLoop pictures.length received2 s2 with ⟨s3, o3⟩
    rw [hcl] at hc1 hc2 hc3 hc4
    cases o3 with
    | none =>
      left
      refine ⟨hc1.running, ?_, hc1⟩
      by_contra hlen
      by_cases hfirst : pictures.length ≤ received.length + s1.logsIndex
      · obtain ⟨rest, hrest, hle⟩ := hd3 hfirst
        simp only [Option.some.injEq] at hrest
        subst hrest
        obtain ⟨rest', hrest'⟩ := hc4 hle
        simp at hrest'
      · omega
    | some received3 =>
      right
      exact ⟨s3, hc1, hc2, hc3 received3 rfl, rfl⟩

end ImageRecognition

namespace ImageRecognition

/-! ## A worker -/

/-- A worker receives the picture rank 0 sent, when the picture's matrix has
`dimension * dimension` cells. -/
theorem receivePicture_sendPicture (picture : Picture) (rest : List Message)
    (hwf : picture.colorsMatrix.length = (picture.dimension * picture.dimension).toNat) :
    receivePicture (sendPicture picture PICTURE_TAG ++ rest) =
      some (picture, PICTURE_TAG, rest) := by
  have htake : picture.colorsMatrix.take (picture.dimension * picture.dimension).toNat =
      picture.colorsMatrix := List.take_of_length_le (le_of_eq hwf)
  simp [receivePicture, sendPicture, MPI_Recv, htake, hwf]

/-- A worker that is sent pictures and then a terminate message searches exactly these pictures
and leaves its loop at the terminate message, whatever follows it. -/
theorem workerLoop_exits (search : Picture → Except Fault Logs) (term : Message)
    (hterm : term.tag = TERMINATE_TAG) (hdata : term.data.length = 1) (later : List Message) :
    ∀ (dispatches : List (Nat × Picture)) (fuel : Nat) (processed : List Picture)
      (sent : List Message),
      dispatches.length < fuel →
      (∀ d ∈ dispatches,
        d.2.colorsMatrix.length = (d.2.dimension * d.2.dimension).toNat ∧
        answers search d.2 = true) →
      ∃ m inbox1 sent', MPI_Recv 1 none (pictureMessages dispatches ++ term :: later)
          = some (m, inbox1) ∧
        workerLoop search fuel m.tag
            { processed := processed, sent := sent, inbox := inbox1, status := .running } =
          { processed := processed ++ dispatches.map Prod.snd, sent := sent', inbox := later
            status := .exited }
  | [], fuel, processed, sent, hfuel, _ => by
    obtain ⟨f, rfl⟩ : ∃ f, fuel = f + 1 := ⟨fuel - 1, by simp at hfuel; omega⟩
    refine ⟨term, later, sent, by simp [pictureMessages, MPI_Recv, hdata], ?_⟩
    simp [workerLoop, hterm]
  | (k, picture) :: dispatches, fuel, processed, sent, hfuel, hall => by
    obtain ⟨f, rfl⟩ : ∃ f, fuel = f + 1 := ⟨fuel - 1, by simp at hfuel; omega⟩
    obtain ⟨hwf, hans⟩ := hall (k, picture) (List.mem_cons_self _ _)
    have hrest : ∀ d ∈ dispatches,
        d.2.colorsMatrix.length = (d.2.dimension * d.2.dimension).toNat ∧
        answers search d.2 = true := fun d hd => hall d (List.mem_cons_of_mem _ hd)
    have hstream : pictureMessages ((k, picture) :: dispatches) ++ term :: later =
        { tag := PICTURE_TAG, data := [(k : Int)] } ::
          (sendPicture picture PICTURE_TAG ++ (pictureMessages dispatches ++ term :: later)) := by
      simp [pictureMessages]
    simp only [answers] at hans
    cases hs : search picture with
    | error e => rw [hs] at hans; simp at hans
    | ok log =>
      rw [hs] at hans
      simp only at hans
      cases hm : sendLog log LOGS_TAG with
      | none => rw [hm] at hans; simp at hans
      | some messages =>
        obtain ⟨m, inbox1, sent', hrecv, hrun⟩ := workerLoop_exits search term hterm hdata later
          dispatches f (processed ++ [picture]) (sent ++ messages)
          (by simp at hfuel; omega) hrest
        refine ⟨{ tag := PICTURE_TAG, data := [(k : Int)] },
          sendPicture picture PICTURE_TAG ++ (pictureMessages dispatches ++ term :: later),
          sent', by rw [hstream]; simp [MPI_Recv], ?_⟩
        have htag : PICTURE_TAG ≠ TERMINATE_TAG := by decide
        rw [workerLoop]
        simp only [htag, ne_eq, not_false_eq_true, if_true]
        rw [receivePicture_sendPicture picture _ hwf]
        simp only [hs, hm, hrecv, hrun]
        simp

theorem pictureMessages_length (dispatches : List (Nat × Picture)) :
    (pictureMessages dispatches).length = 4 * dispatches.length := by
  induction dispatches with
  | nil => rfl
  | cons d ds ih =>
    have hcons : pictureMessages (d :: ds) =
        ({ tag := PICTURE_TAG, data := [(d.1 : Int)] } :: sendPicture d.2 PICTURE_TAG) ++
          pictureMessages ds := by simp [pictureMessages]
    rw [hcons, List.length_append, ih]
    simp only [sendPicture, List.length_cons, List.length_nil]
    omega

/-- A worker on the messages of some dispatches followed by a terminate message. -/
theorem worker_exits (search : Picture → Except Fault Logs) (term : Message)
    (hterm : term.tag = TERMINATE_TAG) (hdata : term.data.length = 1) (later : List Message)
    (dispatches : List (Nat × Picture))
    (hall : ∀ d ∈ dispatches,
      d.2.colorsMatrix.length = (d.2.dimension * d.2.dimension).toNat ∧
      answers search d.2 = true) :
    (worker search ((pictureMessages dispatches ++ [term]) ++ later)).status = .exited ∧
    (worker search ((pictureMessages dispatches ++ [term]) ++ later)).processed =
      dispatches.map Prod.snd ∧
    (worker search ((pictureMessages dispatches ++ [term]) ++ later)).inbox = later := by
  have hshape : (pictureMessages dispatches ++ [term]) ++ later =
      pictureMessages dispatches ++ term :: later := by simp
  have hlen : dispatches.length < (pictureMessages dispatches ++ term :: later).length := by
    simp only [List.length_append, List.length_cons, pictureMessages_length]
    omega
  obtain ⟨m, inbox1, sent', hrecv, hrun⟩ := workerLoop_exits search term hterm hdata later
    dispatches _ [] [] hlen hall
  rw [hshape]
  unfold worker
  rw [hrecv]
  simp only [hrun]
  simp

end ImageRecognition

namespace ImageRecognition

/-! ## The terminate loop -/

theorem dispatchedIndices_terminates (ranks : List Nat) (k : Nat) :
    dispatchedIndices (ranks.map (fun i => Event.sendIndex i TERMINATE_TAG k)) = [] := by
  induction ranks with
  | nil => rfl
  | cons r ranks ih => simpa [dispatchedIndices] using ih

theorem dispatchesTo_terminates (rank : Nat) (ranks : List Nat) (k : Nat) :
    dispatchesTo rank (ranks.map (fun i => Event.sendIndex i TERMINATE_TAG k)) = [] := by
  induction ranks with
  | nil => rfl
  | cons r ranks ih => simpa [dispatchesTo] using ih

theorem inboxOf_terminates_other (rank : Nat) (ranks : List Nat) (k : Nat)
    (h : rank ∉ ranks) :
    inboxOf rank (ranks.map (fun i => Event.sendIndex i TERMINATE_TAG k)) = [] := by
  induction ranks with
  | nil => rfl
  | cons r ranks ih =>
    have hr : r ≠ rank := fun e => h (e ▸ List.mem_cons_self _ _)
    have ih' := ih (fun hm => h (List.mem_cons_of_mem _ hm))
    simp only [inboxOf, List.map_cons, List.flatMap_cons, messagesTo, hr, if_false,
      List.nil_append] at ih' ⊢
    exact ih'

/-- The terminate loop puts exactly one message on the channel to each rank it visits. -/
theorem inboxOf_terminates (rank : Nat) (ranks : List Nat) (k : Nat)
    (hmem : rank ∈ ranks) (hnodup : ranks.Nodup) :
    inboxOf rank (ranks.map (fun i => Event.sendIndex i TERMINATE_TAG k)) =
      [{ tag := TERMINATE_TAG, data := [(k : Int)] }] := by
  induction ranks with
  | nil => simp at hmem
  | cons r ranks ih =>
    have hnd := List.nodup_cons.mp hnodup
    by_cases hr : r = rank
    · subst hr
      have hrest := inboxOf_terminates_other r ranks k hnd.1
      simp only [inboxOf, List.map_cons, List.flatMap_cons, messagesTo, if_true] at hrest ⊢
      rw [hrest]
      rfl
    · have hmem' : rank ∈ ranks := by
        rcases List.mem_cons.mp hmem with h | h
        · exact absurd h.symm hr
        · exact h
      have ih' := ih hmem' hnd.2
      simp only [inboxOf, List.map_cons, List.flatMap_cons, messagesTo, hr, if_false,
        List.nil_append] at ih' ⊢
      exact ih'

theorem pictureMessages_tag (dispatches : List (Nat × Picture)) :
    ∀ m ∈ pictureMessages dispatches, m.tag = PICTURE_TAG := by
  intro m hm
  simp only [pictureMessages, List.mem_flatMap, sendPicture, List.mem_cons,
    List.mem_singleton, List.not_mem_nil, or_false] at hm
  obtain ⟨d, _, h | h | h | h⟩ := hm <;> rw [h]

end ImageRecognition

namespace ImageRecognition

/-! ## The claims on the coordinator -/

/-- C10: in a run on at least two processes, after every statement of the coordinator that
changes `pictureIndex` or `logsIndex` (initial window, dispatch loop, collection loop), the
number `pictureIndex - logsIndex` of pictures sent and not yet answered is at most `size - 1`,
whatever the calls of `receiveLog` return and also when one of them never returns. -/
theorem in_flight_at_most_workers (size : Nat) (pictures : List Picture)
    (numberOfObjects : Nat) (heap : Nat → Position) (received : List (Logs × Nat))
    (hsize : 2 ≤ size) :
    ∀ p ∈ (master size pictures numberOfObjects heap received).points,
      (p.1 : Int) - (p.2 : Int) ≤ (size : Int) - 1 := by
  intro p hp
  have hbound : p.1 ≤ p.2 + (size - 1) := by
    rcases master_spec size pictures numberOfObjects heap received with
      ⟨_, _, hinv⟩ | ⟨s, hinv, _, _, hm⟩
    · exact hinv.points_ok p hp
    · rw [hm] at hp
      exact hinv.points_ok p hp
  omega

/-- C10 at the run of the scenario: three processes, two pictures; after the initial window
both pictures are in flight. -/
theorem in_flight_at_most_workers_witness :
    ((2, 0) : Nat × Nat) ∈
      (scenarioMaster (receiveLogs 2 scenarioNetwork scenarioMatching)).points ∧
    (((2, 0) : Nat × Nat).1 : Int) - ((((2, 0) : Nat × Nat).2 : Nat) : Int) ≤
      ((3 : Nat) : Int) - 1 :=
  ⟨by decide,
   in_flight_at_most_workers 3 scenarioPictures 1 (fun _ => { row := 0, column := 0 })
    (receiveLogs 2 scenarioNetwork scenarioMatching) (by decide) (2, 0) (by decide)⟩

/-- What holds of the dispatch in every run, whatever the calls of `receiveLog` return:
(1) after every `receiveLog` made while pictures are left to dispatch, the next two statements
send the next index and the picture with that index to the rank in `status.MPI_SOURCE`, the
worker whose message completed the receive;
(2) the indices of the pictures sent are `0, 1, ..., pictureIndex - 1` in this order and every
picture sent is the one stored at its index; (3) with a reply for every picture the coordinator
runs to its end and the indices sent are `0, 1, ..., numberOfPictures - 1`, each once. -/
theorem dispatch_in_index_order (size : Nat) (pictures : List Picture)
    (numberOfObjects : Nat) (heap : Nat → Position) (received : List (Logs × Nat)) :
    Redispatches pictures (master size pictures numberOfObjects heap received).events ∧
    dispatchedIndices (master size pictures numberOfObjects heap received).events =
      List.range (master size pictures numberOfObjects heap received).pictureIndex ∧
    (∀ rank, ∀ d ∈ dispatchesTo rank (master size pictures numberOfObjects heap received).events,
      pictures[d.1]? = some d.2) ∧
    (pictures.length ≤ received.length →
      (master size pictures numberOfObjects heap received).finished = true ∧
      dispatchedIndices (master size pictures numberOfObjects heap received).events =
        List.range pictures.length ∧
      (dispatchedIndices (master size pictures numberOfObjects heap received).events).Nodup) := by
  rcases master_spec size pictures numberOfObjects heap received with
    ⟨_, hshort, hinv⟩ | ⟨s, hinv, hall, _, hm⟩
  · exact ⟨hinv.redispatch, hinv.dispatched, hinv.carried, fun hlen => by omega⟩
  · rw [hm]
    have hd : dispatchedIndices (terminateAll size s).events = List.range s.pictureIndex := by
      show dispatchedIndices (s.events ++ _) = _
      rw [dispatchedIndices_append, dispatchedIndices_terminates, List.append_nil,
        hinv.dispatched]
    refine ⟨?_, hd, ?_, fun _ => ⟨rfl, ?_, ?_⟩⟩
    · refine redispatches_append_sends pictures _ _ hinv.redispatch ?_
      intro e he slot source
      simp only [List.mem_map] at he
      obtain ⟨i, _, rfl⟩ := he
      simp
    · intro rank d hmem
      change d ∈ dispatchesTo rank (s.events ++ _) at hmem
      rw [dispatchesTo_append, dispatchesTo_terminates, List.append_nil] at hmem
      exact hinv.carried rank d hmem
    · rw [hd]
      exact congrArg List.range hall
    · rw [hd]
      exact List.nodup_range _

/-- The dispatch at the run of the scenario on two processes: the first `receiveLog` comes while
picture 1 is left, and the next two statements send index 1 and picture 1 to rank 1, the
source of the reply. -/
theorem dispatch_in_index_order_witness :
    (soloMaster soloReplies).events[2]? = some (Event.receiveLog 0 1) ∧
    ∃ picture, scenarioPictures[1]? = some picture ∧
      (soloMaster soloReplies).events[3]? = some (Event.sendIndex 1 PICTURE_TAG 1) ∧
      (soloMaster soloReplies).events[4]? = some (Event.sendPicture 1 1 picture) :=
  ⟨by decide,
   (dispatch_in_index_order 2 scenarioPictures 1 (fun _ => { row := 0, column := 0 })
      soloReplies).1 2 0 1 (by decide) (by decide)⟩

/-- The terminate handshake in a run on at least two processes in which every call of
`receiveLog` returns: the coordinator runs to its end and the channel to every worker
`1 <= rank < size` carries the messages of the pictures dispatched to that worker, all with
`PICTURE_TAG`, followed by exactly
one message with `TERMINATE_TAG`, which is the last one. A worker whose searches end with an
entry receives these messages, searches exactly the pictures dispatched to it (none, if none was
dispatched), and leaves its loop at the terminate message: whatever messages `later` follow it
stay unread. -/
theorem terminate_handshake (size : Nat) (pictures : List Picture) (numberOfObjects : Nat)
    (heap : Nat → Position) (received : List (Logs × Nat))
    (search : Picture → Except Fault Logs) (hsize : 2 ≤ size)
    (hreplies : pictures.length ≤ received.length)
    (hwf : ∀ p ∈ pictures, p.colorsMatrix.length = (p.dimension * p.dimension).toNat)
    (hsearch : ∀ p ∈ pictures, answers search p = true) :
    (master size pictures numberOfObjects heap received).finished = true ∧
    ∀ rank, 1 ≤ rank → rank < size →
      inboxOf rank (master size pictures numberOfObjects heap received).events =
        pictureMessages
          (dispatchesTo rank (master size pictures numberOfObjects heap received).events) ++
        [{ tag := TERMINATE_TAG, data := [(pictures.length : Int)] }] ∧
      (∀ m ∈ pictureMessages
          (dispatchesTo rank (master size pictures numberOfObjects heap received).events),
        m.tag = PICTURE_TAG ∧ m.tag ≠ TERMINATE_TAG) ∧
      ∀ later,
        (worker search (inboxOf rank
          (master size pictures numberOfObjects heap received).events ++ later)).status
          = .exited ∧
        (worker search (inboxOf rank
          (master size pictures numberOfObjects heap received).events ++ later)).processed
          = (dispatchesTo rank
              (master size pictures numberOfObjects heap received).events).map Prod.snd ∧
        (worker search (inboxOf rank
          (master size pictures numberOfObjects heap received).events ++ later)).inbox
          = later := by
  rcases master_spec size pictures numberOfObjects heap received with
    ⟨_, hshort, _⟩ | ⟨s, hinv, hall, _, hm⟩
  · omega
  · rw [hm]
    refine ⟨rfl, ?_⟩
    intro rank h1 h2
    have hd : dispatchesTo rank (terminateAll size s).events = dispatchesTo rank s.events := by
      show dispatchesTo rank (s.events ++ _) = _
      rw [dispatchesTo_append, dispatchesTo_terminates, List.append_nil]
    have hin : inboxOf rank (terminateAll size s).events =
        pictureMessages (dispatchesTo rank s.events) ++
          [{ tag := TERMINATE_TAG, data := [(pictures.length : Int)] }] := by
      show inboxOf rank (s.events ++ _) = _
      rw [inboxOf_append, hinv.inbox rank,
        inboxOf_terminates rank _ s.pictureIndex
          (List.mem_range'_1.mpr ⟨h1, by omega⟩) (List.nodup_range' _ _), hall]
    rw [hd, hin]
    refine ⟨rfl, ?_, ?_⟩
    · intro m hmem
      have ht := pictureMessages_tag _ m hmem
      exact ⟨ht, by rw [ht]; decide⟩
    · intro later
      refine worker_exits search
        { tag := TERMINATE_TAG, data := [(pictures.length : Int)] } rfl rfl later _ ?_
      intro d hmem
      have hp : d.2 ∈ pictures := by
        have hc := hinv.carried rank d hmem
        obtain ⟨hl, hv⟩ := List.getElem?_eq_some.mp hc
        exact hv ▸ List.getElem_mem hl
      exact ⟨hwf _ hp, hsearch _ hp⟩

/-- The terminate handshake at the run of the scenario: three processes, two pictures, both
replies received. -/
theorem terminate_handshake_witness :
    (scenarioMaster (receiveLogs 2 scenarioNetwork scenarioMatching)).finished = true ∧
    (worker scenarioSearch (inboxOf 2
      (scenarioMaster (receiveLogs 2 scenarioNetwork scenarioMatching)).events ++ [])).status
      = .exited :=
  ⟨(terminate_handshake 3 scenarioPictures 1 (fun _ => { row := 0, column := 0 })
      (receiveLogs 2 scenarioNetwork scenarioMatching) scenarioSearch (by decide) (by decide)
      (by decide) (by decide)).1,
   ((terminate_handshake 3 scenarioPictures 1 (fun _ => { row := 0, column := 0 })
      (receiveLogs 2 scenarioNetwork scenarioMatching) scenarioSearch (by decide) (by decide)
      (by decide) (by decide)).2 2 (by decide) (by decide)).2.2 [] |>.1⟩

/-- C2, evaluated on the code: three processes, two pictures with ids 10 and -3. Both workers
receive their picture in the initial window and answer in full with `sendLog`. In the first
call of `receiveLog` the first receive is matched with worker 1 (picture id 10) and the second
with worker 2, whose first message is its picture id -3: it is taken as `numObjectsFound`, the
allocation of `-3` cells fails and `checkMalloc` aborts the run. No call of `receiveLog`
returns, the coordinator does not reach the terminate loop, and no message with
`TERMINATE_TAG` is sent to either worker. -/
theorem no_terminate_after_mixed_reply :
    sendLog { pictureID := 10, numObjectsFound := 1, objectIDs := [7],
              objectPositions := [{ row := 0, column := 1 }] } LOGS_TAG
      = (abortedNetwork abortedPictures)[1]? ∧
    sendLog { pictureID := -3, numObjectsFound := 1, objectIDs := [7],
              objectPositions := [{ row := 1, column := 2 }] } LOGS_TAG
      = (abortedNetwork abortedPictures)[2]? ∧
    (recvAnySource 1 LOGS_TAG (abortedNetwork abortedPictures) abortedMatching).map
      (fun r => (r.data, r.MPI_SOURCE)) = some ([10], 1) ∧
    ((recvAnySource 1 LOGS_TAG (abortedNetwork abortedPictures) abortedMatching).bind
      (fun r => recvAnySource 1 LOGS_TAG r.network r.matching)).map
      (fun r => (r.data, r.MPI_SOURCE)) = some ([-3], 2) ∧
    receiveLog LOGS_TAG (abortedNetwork abortedPictures) abortedMatching = none ∧
    receiveLogs 2 (abortedNetwork abortedPictures) abortedMatching = [] ∧
    (abortedMaster abortedPictures
      (receiveLogs 2 (abortedNetwork abortedPictures) abortedMatching)).finished = false ∧
    (∀ rank ∈ [1, 2], ∀ m ∈ inboxOf rank (abortedMaster abortedPictures
      (receiveLogs 2 (abortedNetwork abortedPictures) abortedMatching)).events,
      m.tag ≠ TERMINATE_TAG) := by
  decide

/-- C4, evaluated on the code: three processes, three pictures with ids 10, -3 and 7. The
initial window sends the indices 0 and 1. In the first call of `receiveLog`, made in the
dispatch loop while picture 2 is left, the first receive is matched with worker 1 and the
second with worker 2, whose picture id -3 is taken as `numObjectsFound`: the allocation fails
and `checkMalloc` aborts the run. The indices dispatched over the whole run are 0 and 1; the
picture with index 2 is never sent. -/
theorem last_picture_not_dispatched_after_mixed_reply :
    abortedThreePictures.length = 3 ∧
    sendLog { pictureID := 10, numObjectsFound := 1, objectIDs := [7],
              objectPositions := [{ row := 0, column := 1 }] } LOGS_TAG
      = (abortedNetwork abortedThreePictures)[1]? ∧
    sendLog { pictureID := -3, numObjectsFound := 1, objectIDs := [7],
              objectPositions := [{ row := 1, column := 2 }] } LOGS_TAG
      = (abortedNetwork abortedThreePictures)[2]? ∧
    receiveLog LOGS_TAG (abortedNetwork abortedThreePictures) abortedMatching = none ∧
    receiveLogs 3 (abortedNetwork abortedThreePictures) abortedMatching = [] ∧
    (abortedMaster abortedThreePictures
      (receiveLogs 3 (abortedNetwork abortedThreePictures) abortedMatching)).finished = false ∧
    dispatchedIndices (abortedMaster abortedThreePictures
      (receiveLogs 3 (abortedNetwork abortedThreePictures) abortedMatching)).events = [0, 1] ∧
    2 ∉ dispatchedIndices (abortedMaster abortedThreePictures
      (receiveLogs 3 (abortedNetwork abortedThreePictures) abortedMatching)).events := by
  decide

end ImageRecognition

namespace ImageRecognition

/-! ## writeLogs -/

theorem records_length (log : Logs) (h1 : log.numObjectsFound ≤ log.objectIDs.length)
    (h2 : log.numObjectsFound ≤ log.objectPositions.length) :
    (records log).length = log.numObjectsFound := by
  simp [records, List.length_take, List.length_zipWith]
  omega

theorem records_getElem? (log : Logs) (j : Nat) (hj : j < log.numObjectsFound)
    (objectID : Int) (position : Position) (hi : log.objectIDs[j]? = some objectID)
    (hp : log.objectPositions[j]? = some position) :
    (records log)[j]? = some { objectID := objectID, position := position } := by
  simp [records, List.getElem?_take, hj, List.getElem?_zipWith, hi, hp]

/-- The inner loop of `writeLogs` prints the filled slots from `j` on that pass the guard. -/
theorem writeObjects_spec (log : Logs) (h1 : log.numObjectsFound ≤ log.objectIDs.length)
    (h2 : log.numObjectsFound ≤ log.objectPositions.length) :
    ∀ (remaining j : Nat), j + remaining = log.numObjectsFound →
      writeObjects log remaining j = some (concatText ((((records log).drop j).filter
        (fun r => decide (r.position.row ≠ -1 ∧ r.position.column ≠ -1))).map recordText))
  | 0, j, hj => by
    have hlen := records_length log h1 h2
    rw [List.drop_of_length_le (by omega)]
    rfl
  | remaining + 1, j, hj => by
    have hjp : j < log.objectPositions.length := by omega
    have hji : j < log.objectIDs.length := by omega
    have hp : log.objectPositions[j]? = some log.objectPositions[j] :=
      List.getElem?_eq_getElem hjp
    have hi : log.objectIDs[j]? = some log.objectIDs[j] := List.getElem?_eq_getElem hji
    have hrec := records_getElem? log j (by omega) _ _ hi hp
    obtain ⟨hlt, hval⟩ := List.getElem?_eq_some.mp hrec
    have hdrop : (records log).drop j =
        { objectID := log.objectIDs[j], position := log.objectPositions[j] } ::
          (records log).drop (j + 1) := by
      rw [List.drop_eq_getElem_cons hlt, hval]
    have ih := writeObjects_spec log h1 h2 remaining (j + 1) (by omega)
    rw [writeObjects, hp]
    simp only [hi, ih, hdrop]
    by_cases hg : log.objectPositions[j].row ≠ -1 ∧ log.objectPositions[j].column ≠ -1
    · rw [if_pos hg, List.filter_cons_of_pos (by simpa using hg)]
      rfl
    · rw [if_neg hg, List.filter_cons_of_neg (by simpa using hg)]

/-- The text `writeLogs` prints for one entry. -/
theorem writeLog_spec (log : Logs) (h1 : log.numObjectsFound ≤ log.objectIDs.length)
    (h2 : log.numObjectsFound ≤ log.objectPositions.length) :
    writeLog log = some (reportLine log) := by
  unfold writeLog reportLine
  by_cases h3 : log.numObjectsFound < 3
  · simp only [h3, if_true]
    rfl
  · simp only [h3, if_false]
    rw [writeObjects_spec log h1 h2 log.numObjectsFound 0 (by omega)]
    rfl

/-- C5 as stated fails: an entry with three found objects whose second slot holds the position
`(-1, -1)`. The line printed lists the objects 7 and 9 only, not object 8. -/
theorem sentinel_record_not_listed :
    writeLogs [{ pictureID := 1, numObjectsFound := 3, objectIDs := [7, 8, 9],
                 objectPositions := [{ row := 0, column := 0 }, { row := -1, column := -1 },
                                     { row := 1, column := 1 }] }]
      = some ["Picture 1: found Objects:  7 Position(0,0); 9 Position(1,1);\r\n"] ∧
    writeLogs [{ pictureID := 1, numObjectsFound := 3, objectIDs := [7, 8, 9],
                 objectPositions := [{ row := 0, column := 0 }, { row := -1, column := -1 },
                                     { row := 1, column := 1 }] }]
      ≠ some [reportLineListingAll
               { pictureID := 1, numObjectsFound := 3, objectIDs := [7, 8, 9],
                 objectPositions := [{ row := 0, column := 0 }, { row := -1, column := -1 },
                                     { row := 1, column := 1 }] }] := by
  decide

/-- C5, amended: for entries whose arrays hold their `numObjectsFound` filled slots, `writeLogs`
prints one piece of text per entry, in collection order; for an entry with fewer than three
found objects it is the "no three different objects" line of its picture id, which names no
object; for an entry with three or more it lists, in slot order, the id and position of every
found object whose row and column both differ from `-1`. For an entry none of whose filled
slots holds a `-1` this is the line listing every found object. -/
theorem writeLogs_lines (logs : List Logs)
    (hfilled : ∀ log ∈ logs, log.numObjectsFound ≤ log.objectIDs.length ∧
      log.numObjectsFound ≤ log.objectPositions.length) :
    writeLogs logs = some (logs.map reportLine) ∧
    (∀ log, log.numObjectsFound < 3 → reportLine log =
      "Picture " ++ toString log.pictureID ++ ": No three different Objects were found\r\n") ∧
    (∀ log, 3 ≤ log.numObjectsFound → reportLine log =
      "Picture " ++ toString log.pictureID ++ ": found Objects: " ++
        concatText (((records log).filter
          (fun r => decide (r.position.row ≠ -1 ∧ r.position.column ≠ -1))).map recordText)
        ++ "\r\n") ∧
    (∀ log, (∀ r ∈ records log, r.position.row ≠ -1 ∧ r.position.column ≠ -1) →
      reportLine log = reportLineListingAll log) := by
  refine ⟨?_, ?_, ?_, ?_⟩
  · induction logs with
    | nil => rfl
    | cons log logs ih =>
      have hl := hfilled log (List.mem_cons_self _ _)
      have ih' := ih (fun l hl' => hfilled l (List.mem_cons_of_mem _ hl'))
      simp only [writeLogs, writeLog_spec log hl.1 hl.2, ih', List.map_cons]
  · intro log h3
    simp [reportLine, h3, noThreeLine]
  · intro log h3
    have : ¬ log.numObjectsFound < 3 := by omega
    simp [reportLine, this, foundLine]
  · intro log hall
    unfold reportLine reportLineListingAll
    rw [List.filter_eq_self.mpr (fun r hr => by simpa using hall r hr)]

/-- C5, amended, at two entries: one with a single found object and one with three. -/
theorem writeLogs_lines_witness :
    writeLogs [{ pictureID := 2, numObjectsFound := 1, objectIDs := [7],
                 objectPositions := [{ row := 0, column := 0 }] },
               { pictureID := 1, numObjectsFound := 3, objectIDs := [7, 8, 9],
                 objectPositions := [{ row := 0, column := 0 }, { row := 2, column := 1 },
                                     { row := 1, column := 1 }] }]
      = some ([{ pictureID := 2, numObjectsFound := 1, objectIDs := [7],
                 objectPositions := [{ row := 0, column := 0 }] },
               { pictureID := 1, numObjectsFound := 3, objectIDs := [7, 8, 9],
                 objectPositions := [{ row := 0, column := 0 }, { row := 2, column := 1 },
                                     { row := 1, column := 1 }] }].map reportLine) :=
  (writeLogs_lines _ (by decide)).1

end ImageRecognition

namespace ImageRecognition

/-! ## readInputFile -/

end ImageRecognition

namespace ImageRecognition

end ImageRecognition

namespace ImageRecognition

end ImageRecognition

namespace ImageRecognition

/-- A dimension whose square is not an `int` ends the reading without a result: 46341 is the
least such dimension. -/
theorem dimension_overflow_ends_the_reading :
    readInputFile (fun _ => 0)
        { threshold := some 1, values := [some 1, some 5, some 46341, some 0] } =
      .error .overflow ∧
    (46340 : Int) * 46340 ≤ INT_MAX ∧ INT_MAX < (46341 : Int) * 46341 := by
  decide

end ImageRecognition

namespace ImageRecognition

/-! ## sendLog and receiveLog with a single sender -/

theorem set_same_queue (network : Network) (source : Nat) (queue : List Message)
    (h : network[source]? = some queue) : network.set source queue = network := by
  obtain ⟨hl, hv⟩ := List.getElem?_eq_some.mp h
  apply List.ext_getElem?
  intro i
  rw [List.getElem?_set]
  by_cases hi : source = i
  · subst hi; simp [hl, h]
  · simp [hi]

theorem recvAnySource_head (count tag : Nat) (network : Network) (source : Nat)
    (matching : List Nat) (data : List Int) (queue : List Message)
    (hq : network[source]? = some ({ tag := tag, data := data } :: queue))
    (hcount : data.length = count) :
    recvAnySource count tag network (source :: matching) =
      some { data := data, MPI_SOURCE := source, network := network.set source queue
             matching := matching } := by
  simp [recvAnySource, hq, MPI_Recv, hcount]

theorem getElem?_set_queue (network : Network) (source : Nat) (old queue : List Message)
    (h : network[source]? = some old) : (network.set source queue)[source]? = some queue :=
  List.getElem?_set_self (List.getElem?_eq_some.mp h).1

/-- The loop of `receiveLog` takes back the positions `sendLog` sent, when every receive is
matched with the one sender. -/
theorem receivePositions_sendPositions (tag source : Nat) (later : List Message)
    (matching : List Nat) :
    ∀ (positions acc : List Position) (network : Network),
      network[source]? = some (sendPositions tag positions ++ later) →
      receivePositions tag positions.length acc source network
          (List.replicate (2 * positions.length) source ++ matching) =
        some (acc ++ positions, source, network.set source later, matching)
  | [], acc, network, hq => by
    simp only [sendPositions, List.nil_append] at hq
    simp [receivePositions, set_same_queue network source later hq]
  | p :: positions, acc, network, hq => by
    have hrep : List.replicate (2 * (p :: positions).length) source ++ matching =
        source :: source :: (List.replicate (2 * positions.length) source ++ matching) := by
      have : 2 * (p :: positions).length = 2 * positions.length + 1 + 1 := by
        simp only [List.length_cons]; omega
      rw [this, List.replicate_succ, List.replicate_succ]
      rfl
    have hq1 : network[source]? = some ({ tag := tag, data := [p.row] } ::
        ({ tag := tag, data := [p.column] } :: (sendPositions tag positions ++ later))) := hq
    have hq2 := getElem?_set_queue network source _
      ({ tag := tag, data := [p.column] } :: (sendPositions tag positions ++ later)) hq1
    have hq3 := getElem?_set_queue _ source _ (sendPositions tag positions ++ later) hq2
    rw [hrep, List.length_cons, receivePositions,
      recvAnySource_head 1 tag network source _ [p.row] _ hq1 rfl]
    simp only
    rw [recvAnySource_head 1 tag _ source _ [p.column] _ hq2 rfl]
    simp only
    rw [receivePositions_sendPositions tag source later matching positions _ _ hq3]
    simp [List.set_set]

/-- With a single sender, `receiveLog` returns the entry `sendLog` sent, on its filled slots:
the picture id, the count, and the first `numObjectsFound` object ids and positions. -/
theorem receiveLog_sendLog (log : Logs) (tag source : Nat) (network : Network)
    (messages later : List Message) (matching : List Nat)
    (hsend : sendLog log tag = some messages)
    (hq : network[source]? = some (messages ++ later)) :
    receiveLog tag network
        (List.replicate (3 + 2 * log.numObjectsFound) source ++ matching) =
      some { log := { pictureID := log.pictureID
                      numObjectsFound := log.numObjectsFound
                      objectIDs := log.objectIDs.take log.numObjectsFound
                      objectPositions := log.objectPositions.take log.numObjectsFound }
             MPI_SOURCE := source, network := network.set source later
             matching := matching } := by
  unfold sendLog at hsend
  split at hsend
  · rename_i hlen
    simp only [Option.some.injEq] at hsend
    subst hsend
    have hrep : List.replicate (3 + 2 * log.numObjectsFound) source ++ matching =
        source :: source :: source ::
          (List.replicate (2 * log.numObjectsFound) source ++ matching) := by
      have : 3 + 2 * log.numObjectsFound = 2 * log.numObjectsFound + 1 + 1 + 1 := by omega
      rw [this, List.replicate_succ, List.replicate_succ, List.replicate_succ]
      rfl
    have hlenp : (log.objectPositions.take log.numObjectsFound).length =
        log.numObjectsFound := by rw [List.length_take]; omega
    have hleni : (log.objectIDs.take log.numObjectsFound).length = log.numObjectsFound := by
      rw [List.length_take]; omega
    have hq1 : network[source]? = some ({ tag := tag, data := [log.pictureID] } ::
        ({ tag := tag, data := [(log.numObjectsFound : Int)] } ::
          ({ tag := tag, data := log.objectIDs.take log.numObjectsFound } ::
            (sendPositions tag (log.objectPositions.take log.numObjectsFound) ++ later)))) := hq
    have hq2 := getElem?_set_queue network source _
      ({ tag := tag, data := [(log.numObjectsFound : Int)] } ::
          ({ tag := tag, data := log.objectIDs.take log.numObjectsFound } ::
            (sendPositions tag (log.objectPositions.take log.numObjectsFound) ++ later))) hq1
    have hq3 := getElem?_set_queue _ source _
      ({ tag := tag, data := log.objectIDs.take log.numObjectsFound } ::
            (sendPositions tag (log.objectPositions.take log.numObjectsFound) ++ later)) hq2
    have hq4 := getElem?_set_queue _ source _
      (sendPositions tag (log.objectPositions.take log.numObjectsFound) ++ later) hq3
    have hpos := receivePositions_sendPositions tag source later matching
      (log.objectPositions.take log.numObjectsFound) [] _ hq4
    rw [hlenp] at hpos
    rw [hrep, receiveLog, recvAnySource_head 1 tag network source _ _ _ hq1 rfl]
    simp only
    rw [recvAnySource_head 1 tag _ source _ _ _ hq2 rfl]
    have hnn : ¬ ((log.numObjectsFound : Int) < 0) := by omega
    simp only [List.headD_cons, hnn, if_false, Int.toNat_ofNat]
    rw [recvAnySource_head log.numObjectsFound tag _ source _ _ _ hq3 hleni]
    simp only
    rw [hpos]
    simp [List.set_set]
  · simp at hsend

end ImageRecognition

namespace ImageRecognition

/-! ## The result collection holds the entries in arrival order -/

theorem set_at_boundary {α : Type} (done pending : List α) (x y : α) :
    (done ++ x :: pending).set done.length y = done ++ y :: pending := by
  induction done with
  | nil => rfl
  | cons d done ih => simp [ih]

theorem initialWindow_logs (size : Nat) (pictures : List Picture) :
    ∀ (iterations i : Nat) (s : Master),
      (initialWindow size pictures iterations i s).searchLogs = s.searchLogs ∧
      (initialWindow size pictures iterations i s).logsIndex = s.logsIndex
  | 0, _, _ => ⟨rfl, rfl⟩
  | iterations + 1, i, s => by
    unfold initialWindow
    split
    · cases hp : pictures[s.pictureIndex]? with
      | none => exact ⟨rfl, rfl⟩
      | some picture =>
        simp only
        exact initialWindow_logs size pictures iterations (i + 1) _
    · exact ⟨rfl, rfl⟩

/-- The dispatch loop stores the entries it receives in the slots from `logsIndex` on. -/
theorem dispatchLoop_logs (size : Nat) (pictures : List Picture) :
    ∀ (received : List (Logs × Nat)) (s : Master) (done pending : List Logs),
      MasterInvariant size pictures s → s.searchLogs = done ++ pending →
      done.length = s.logsIndex →
      ∀ rest, (dispatchLoop pictures received s).2 = some rest →
        ∃ used, received = used ++ rest ∧
          (dispatchLoop pictures received s).1.logsIndex = s.logsIndex + used.length ∧
          (dispatchLoop pictures received s).1.searchLogs =
            done ++ used.map Prod.fst ++ pending.drop used.length
  | [], s, done, pending, _, hlogs, _, rest, hrest => by
    unfold dispatchLoop at hrest ⊢
    split at hrest
    · simp at hrest
    · rename_i hge
      simp only [Option.some.injEq] at hrest
      subst hrest
      simp only [hge, if_false]
      exact ⟨[], rfl, rfl, by simpa using hlogs⟩
  | (log, source) :: received, s, done, pending, hinv, hlogs, hdone, rest, hrest => by
    unfold dispatchLoop at hrest ⊢
    by_cases hlt : s.pictureIndex < pictures.length
    · simp only [hlt, if_true] at hrest ⊢
      cases hp : pictures[s.pictureIndex]? with
      | none =>
        rw [List.getElem?_eq_getElem hlt] at hp
        simp at hp
      | some picture =>
        simp only [hp] at hrest ⊢
        have hslot : s.logsIndex < s.searchLogs.length := by
          have := hinv.answered_le
          rw [hinv.slots]
          omega
        obtain ⟨x, pending', rfl⟩ : ∃ x pending', pending = x :: pending' := by
          cases pending with
          | nil =>
            rw [hlogs, List.append_nil] at hslot
            omega
          | cons x pending' => exact ⟨x, pending', rfl⟩
        have hset : s.searchLogs.set s.logsIndex log = (done ++ [log]) ++ pending' := by
          rw [hlogs, ← hdone, set_at_boundary]
          simp
        obtain ⟨used, huse, hidx, hres⟩ := dispatchLoop_logs size pictures received _
          (done ++ [log]) pending'
          (invariant_after_redispatch size pictures s hinv log source picture hp) hset
          (by simp [hdone]) rest hrest
        refine ⟨(log, source) :: used, by simp [huse], ?_, ?_⟩
        · rw [hidx]; simp only [List.length_cons]; omega
        · rw [hres]; simp
    · simp only [hlt, if_false, Option.some.injEq] at hrest ⊢
      subst hrest
      exact ⟨[], rfl, rfl, by simpa using hlogs⟩

/-- The collection loop stores the entries it receives in the slots from `logsIndex` on. -/
theorem collectLoop_logs (size : Nat) (pictures : List Picture) :
    ∀ (received : List (Logs × Nat)) (s : Master) (done pending : List Logs),
      MasterInvariant size pictures s → s.pictureIndex = pictures.length →
      s.searchLogs = done ++ pending → done.length = s.logsIndex →
      ∀ rest, (collectLoop pictures.length received s).2 = some rest →
        ∃ used, received = used ++ rest ∧
          (collectLoop pictures.length received s).1.logsIndex = s.logsIndex + used.length ∧
          (collectLoop pictures.length received s).1.searchLogs =
            done ++ used.map Prod.fst ++ pending.drop used.length
  | [], s, done, pending, _, _, hlogs, _, rest, hrest => by
    unfold collectLoop at hrest ⊢
    split at hrest
    · simp at hrest
    · rename_i hge
      simp only [Option.some.injEq] at hrest
      subst hrest
      simp only [hge, if_false]
      exact ⟨[], rfl, rfl, by simpa using hlogs⟩
  | (log, source) :: received, s, done, pending, hinv, hall, hlogs, hdone, rest, hrest => by
    unfold collectLoop at hrest ⊢
    by_cases hlt : s.logsIndex < pictures.length
    · simp only [hlt, if_true] at hrest ⊢
      have hslot : s.logsIndex < s.searchLogs.length := by rw [hinv.slots]; exact hlt
      obtain ⟨x, pending', rfl⟩ : ∃ x pending', pending = x :: pending' := by
        cases pending with
        | nil =>
          rw [hlogs, List.append_nil] at hslot
          omega
        | cons x pending' => exact ⟨x, pending', rfl⟩
      have hset : s.searchLogs.set s.logsIndex log = (done ++ [log]) ++ pending' := by
        rw [hlogs, ← hdone, set_at_boundary]
        simp
      obtain ⟨used, huse, hidx, hres⟩ := collectLoop_logs size pictures received _
        (done ++ [log]) pending'
        (invariant_after_receive size pictures s hinv log source hall hlt) hall hset
        (by simp [hdone]) rest hrest
      refine ⟨(log, source) :: used, by simp [huse], ?_, ?_⟩
      · rw [hidx]; simp only [List.length_cons]; omega
      · rw [hres]; simp
    · simp only [hlt, if_false, Option.some.injEq] at hrest ⊢
      subst hrest
      exact ⟨[], rfl, rfl, by simpa using hlogs⟩

end ImageRecognition

namespace ImageRecognition

/-- With a reply for every picture the coordinator finishes and its result collection holds
exactly `numberOfPictures` entries: the entries stored by the first `numberOfPictures` calls of
`receiveLog`, in arrival order. -/
theorem searchLogs_in_arrival_order (size : Nat) (pictures : List Picture)
    (numberOfObjects : Nat) (heap : Nat → Position) (received : List (Logs × Nat))
    (hreplies : pictures.length ≤ received.length) :
    (master size pictures numberOfObjects heap received).finished = true ∧
    (master size pictures numberOfObjects heap received).searchLogs =
      (received.take pictures.length).map Prod.fst := by
  obtain ⟨hw, hw0⟩ := initialWindow_invariant size pictures (size - 1) 1 _
    (invariant_initially size pictures numberOfObjects heap) rfl (le_refl _)
  obtain ⟨hwl, _⟩ := initialWindow_logs size pictures (size - 1) 1
    { pictureIndex := 0, logsIndex := 0
      searchLogs := initialLogs pictures numberOfObjects heap
      events := [], points := [(0, 0)], finished := false }
  simp only at hwl
  unfold master
  simp only
  generalize initialWindow size pictures (size - 1) 1 _ = s1 at hw hw0 hwl ⊢
  obtain ⟨hd1, hd2, hd3⟩ := dispatchLoop_invariant size pictures received s1 hw
  have hdl := dispatchLoop_logs size pictures received s1 [] s1.searchLogs hw
    rfl (by rw [hw0]; rfl)
  obtain ⟨rest2, hrest2, hle2⟩ := hd3 (by omega)
  rcases hdisp : dispatchLoop pictures received s1 with ⟨s2, o2⟩
  rw [hdisp] at hd1 hd2 hrest2 hle2 hdl
  simp only at hrest2
  subst hrest2
  simp only
  have hall : s2.pictureIndex = pictures.length := hd2 rest2 rfl
  obtain ⟨used1, huse1, hidx1, hlogs1⟩ := hdl rest2 rfl
  simp only at hidx1 hlogs1 hle2
  rw [hw0, Nat.zero_add] at hidx1
  rw [hwl] at hlogs1
  obtain ⟨hc1, hc2, hc3, hc4⟩ := collectLoop_invariant size pictures rest2 s2 hd1 hall
  have hcl := collectLoop_logs size pictures rest2 s2 (used1.map Prod.fst)
    ((initialLogs pictures numberOfObjects heap).drop used1.length) hd1 hall
    (by rw [hlogs1]; simp) (by simp [hidx1])
  obtain ⟨rest3, hrest3⟩ := hc4 hle2
  rcases hcoll : collectLoop pictures.length rest2 s2 with ⟨s3, o3⟩
  rw [hcoll] at hc3 hrest3 hcl
  simp only at hrest3
  subst hrest3
  simp only
  obtain ⟨used2, huse2, hidx2, hlogs2⟩ := hcl rest3 rfl
  simp only at hidx2 hlogs2
  have hn : used1.length + used2.length = pictures.length := by
    have := hc3 rest3 rfl
    simp only at this
    omega
  refine ⟨rfl, ?_⟩
  show s3.searchLogs = _
  have hinit : (initialLogs pictures numberOfObjects heap).length = pictures.length := by
    simp [initialLogs]
  have htake : received.take pictures.length = used1 ++ used2 := by
    rw [huse1, huse2, ← List.append_assoc, ← hn, ← List.length_append]
    exact List.take_left' rfl
  rw [hlogs2, htake, List.drop_drop,
    List.drop_of_length_le (by rw [hinit]; omega)]
  simp

end ImageRecognition

namespace ImageRecognition

/-! ## The decoding of the engine's answer -/

end ImageRecognition

namespace ImageRecognition

/-! ## The same input with one and with two workers, and with two completion orders -/

/-- The search leaves the picture's id in the entry it was started with. -/
theorem search_pictureID (engine : Picture → Object → Int) (picture : Picture)
    (objects : List Object) :
    ∀ (completion : List Nat) (log log' : Logs),
      findObjectsInPicture engine picture objects completion log = .ok log' →
      log.pictureID = picture.ID → log'.pictureID = picture.ID
  | [], log, log', h, hid => by
    simp only [findObjectsInPicture, Except.ok.injEq] at h
    rw [← h]; exact hid
  | i :: completion, log, log', h, hid => by
    rw [findObjectsInPicture] at h
    cases ht : objectTask engine picture objects i log with
    | error e => rw [ht] at h; simp at h
    | ok log1 =>
      rw [ht] at h
      simp only at h
      refine search_pictureID engine picture objects completion log1 log' h ?_
      unfold objectTask at ht
      cases hobj : objects[i]? with
      | none => rw [hobj] at ht; simp at ht
      | some object =>
        rw [hobj] at ht
        simp only at ht
        split at ht
        · unfold criticalSection at ht
          split_ifs at ht
          simp only [Except.ok.injEq] at ht
          rw [← ht]
        · simp only [Except.ok.injEq] at ht
          rw [← ht]; exact hid

/-- Two completion orders of the tasks of one search: the two entries carry the same picture
id, the same count, and record lists that are permutations of each other; both searches return
when no task's division traps, in particular on every picture of positive dimension. -/
theorem completion_order_irrelevant (engine : Picture → Object → Int) (picture : Picture)
    (objects : List Object) (heap1 heap2 : Nat → Int) (completion1 completion2 : List Nat)
    (h1 : completion1.Perm (List.range objects.length))
    (h2 : completion2.Perm (List.range objects.length)) :
    (∀ log1 log2,
      findObjectsInPicture engine picture objects completion1
        (workerEntry picture objects.length heap1) = .ok log1 →
      findObjectsInPicture engine picture objects completion2
        (workerEntry picture objects.length heap2) = .ok log2 →
      log1.pictureID = log2.pictureID ∧ log1.numObjectsFound = log2.numObjectsFound ∧
      (records log1).Perm (records log2)) ∧
    ((∀ i, i < objects.length → ¬ taskTraps engine picture objects i) →
      (∃ log1, findObjectsInPicture engine picture objects completion1
        (workerEntry picture objects.length heap1) = .ok log1) ∧
      (∃ log2, findObjectsInPicture engine picture objects completion2
        (workerEntry picture objects.length heap2) = .ok log2)) := by
  have hperm : completion1.Perm completion2 := h1.trans h2.symm
  refine ⟨?_, fun hd => ⟨search_returns engine picture objects heap1 completion1 h1 hd,
    search_returns engine picture objects heap2 completion2 h2 hd⟩⟩
  intro log1 log2 hok1 hok2
  obtain ⟨hr1, hn1, _⟩ := records_of_search engine picture objects heap1 completion1 h1 log1
    hok1
  obtain ⟨hr2, hn2, _⟩ := records_of_search engine picture objects heap2 completion2 h2 log2
    hok2
  have hp1 := search_pictureID engine picture objects completion1 _ log1 hok1 rfl
  have hp2 := search_pictureID engine picture objects completion2 _ log2 hok2 rfl
  refine ⟨hp1.trans hp2.symm, ?_, ?_⟩
  · rw [hn1, hn2]
    exact (hperm.filterMap _).length_eq
  · rw [hr1, hr2]
    exact hperm.filterMap _

/-- C11, evaluated on the code: the scenario's input (two pictures, one object, the engine
`scenarioEngine`) is run on two processes and on three. With a single worker every receive is
matched with rank 1 and the coordinator ends with the triples `(10, 7, 0, 1)` and
`(1, 7, 1, 2)`. With two workers and the receives matched as in `scenarioMatching` it ends with
the triples `(10, 1, 7, 1)` and `(2, 7, 0, 1)`: not the same set. -/
theorem triples_depend_on_worker_count :
    soloFirstReply <+: soloReplies ∧
    (soloMaster soloFirstReply).events <+: (soloMaster soloReplies).events ∧
    (soloMaster soloReplies).finished = true ∧
    triples (soloMaster soloReplies).searchLogs = [(10, 7, 0, 1), (1, 7, 1, 2)] ∧
    (scenarioMaster (receiveLogs 2 scenarioNetwork scenarioMatching)).finished = true ∧
    triples (scenarioMaster (receiveLogs 2 scenarioNetwork scenarioMatching)).searchLogs =
      [(10, 1, 7, 1), (2, 7, 0, 1)] ∧
    ¬ (triples (soloMaster soloReplies).searchLogs).Perm
      (triples (scenarioMaster (receiveLogs 2 scenarioNetwork scenarioMatching)).searchLogs) := by
  decide

end ImageRecognition
